import Mathlib

/-!
Shallow embedding of `aws/resource_aws_iam_role.go` from
`alexrudd/terraform-provider-aws`: the Terraform resource handlers for
`aws_iam_role` (Create / Read / Update / Delete) and their helper functions.

Modelling conventions:
* The AWS SDK connection (`*iam.IAM`) is an oracle: a structure of response
  functions, one per API operation used by the file.  Paginated list calls
  (`ListAttachedRolePoliciesPages`, `ListRolePoliciesPages`) are modelled as a
  single call returning the fully accumulated list, or an error.
* Each embedded Go function returns the ordered list of AWS API calls it
  issued (its trace) together with its result.  Go `error` results become
  `Except AwsError α`; `fmt.Errorf("...: %w", err)` wrapping is modelled as
  the identity on the wrapped error, because the only inspections performed
  downstream (`tfawserr.ErrCodeEquals`, `isAWSErr`) unwrap wrapped errors and
  look at the AWS error code/message.
* `resource.Retry(window, f)` is modelled by a fuel parameter: `fuel` is the
  number of *re*-tries the time window admits, so at most `fuel + 1` attempts
  are made inside the retry loop; exhausting the fuel while the error is
  retryable models the window elapsing, which yields a `TimeoutError`
  (recognised by `isResourceTimeoutError`).
* `aws.String` / `aws.StringValue` give `Option String` fields;
  `aws.StringValue nil = ""`.
-/

/-- AWS API error, as inspected by `tfawserr.ErrCodeEquals` (code equality)
and `isAWSErr` (code equality plus message containment). -/
structure AwsError where
  code : String
  message : String
deriving DecidableEq, Repr

def errCodeNoSuchEntity : String := "NoSuchEntity"

def errCodeDeleteConflict : String := "DeleteConflict"

def errCodeMalformedPolicyDocument : String := "MalformedPolicyDocument"

/-- Whether character list `s` begins with `pat`. -/
def leadsWith : List Char → List Char → Bool
  | [], _ => true
  | _ :: _, [] => false
  | c :: cs, d :: ds => c == d && leadsWith cs ds

/-- Whether `pat` occurs as a contiguous run inside `s`
(Go `strings.Contains`). -/
def hasSub (pat : List Char) : List Char → Bool
  | [] => leadsWith pat []
  | c :: rest => leadsWith pat (c :: rest) || hasSub pat rest

/-- Go `strings.Contains s pat`. -/
def strContains (s pat : String) : Bool := hasSub pat.data s.data

/-- Embeds `isAWSErr(err, code, message)`: the error is an AWS error whose
code equals `code` and whose message contains `message`.  `none` models a
nil Go error. -/
def isAWSErr (err : Option AwsError) (code message : String) : Bool :=
  match err with
  | none => false
  | some e => e.code == code && strContains e.message message

/-- Embeds `tfawserr.ErrCodeEquals(err, code)`. -/
def errCodeEquals (err : Option AwsError) (code : String) : Bool :=
  match err with
  | none => false
  | some e => e.code == code

/-- `aws.StringValue`: dereference an optional string, `""` for nil. -/
def stringValue : Option String → String
  | none => ""
  | some s => s

/-- Embeds the Go struct `iam.PutRolePolicyInput`; pointer fields start out
nil (`none`). -/
structure PutRolePolicyInput where
  roleName : Option String := none
  policyName : Option String := none
  policyDocument : Option String := none
deriving DecidableEq, Repr

/-- Embeds `iam.CreateRoleInput` as built by the Create handler. -/
structure CreateRoleInput where
  path : String
  roleName : String
  assumeRolePolicyDocument : String
  description : Option String := none
  maxSessionDuration : Option Int := none
  permissionsBoundary : Option String := none
  tags : List (String × String) := []
deriving DecidableEq, Repr

/-- One AWS API call, as recorded in a trace.  Constructors carry the request
data the Go code puts in the request struct; retried calls additionally carry
their attempt index. -/
inductive ApiCall where
  | createRole (input : CreateRoleInput) (attempt : ℕ)
  | getRole (role : String)
  | updateAssumeRolePolicy (role policy : String)
  | updateRoleDescription (role desc : String)
  | updateRole (role : String) (maxSession : Int)
  | putRolePermissionsBoundary (role arn : String)
  | deleteRolePermissionsBoundary (role : String)
  | updateTags (role : String)
  | listInstanceProfilesForRole (role : String)
  | removeRoleFromInstanceProfile (profileName role : String)
  | listAttachedRolePolicies (role : String)
  | detachRolePolicy (arn role : String)
  | listRolePolicies (role : String)
  | deleteRolePolicy (policyName role : String)
  | deleteRole (role : String) (attempt : ℕ)
  | putRolePolicy (input : PutRolePolicyInput)
  | attachRolePolicy (role arn : String)
  | getRolePolicy (role policyName : String)
deriving DecidableEq, Repr

/-- The remote IAM role as returned by `GetRole` (`*iam.Role`), with the
fields the Read handler consumes. -/
structure RemoteRole where
  arn : String
  createDate : String
  description : Option String
  maxSessionDuration : Int
  roleName : String
  path : String
  permissionsBoundaryArn : Option String
  roleId : String
  tags : List (String × String)
  assumeRolePolicyDocument : String
deriving DecidableEq, Repr

/-- The AWS IAM connection, as an oracle of responses.  Retried operations
(`CreateRole`, `DeleteRole`) are indexed by attempt number so that each
attempt may answer differently. -/
structure Conn where
  createRole : CreateRoleInput → ℕ → Except AwsError String
  getRole : String → Except AwsError (Option RemoteRole)
  updateAssumeRolePolicy : String → String → Except AwsError Unit
  updateRoleDescription : String → String → Except AwsError Unit
  updateRole : String → Int → Except AwsError Unit
  putRolePermissionsBoundary : String → String → Except AwsError Unit
  deleteRolePermissionsBoundary : String → Except AwsError Unit
  updateTags : String → Except AwsError Unit
  listInstanceProfilesForRole : String → Except AwsError (List String)
  removeRoleFromInstanceProfile : String → String → Except AwsError Unit
  listAttachedRolePolicies : String → Except AwsError (List String)
  detachRolePolicy : String → String → Except AwsError Unit
  listRolePolicies : String → Except AwsError (List String)
  deleteRolePolicy : String → String → Except AwsError Unit
  deleteRole : String → ℕ → Except AwsError Unit
  putRolePolicy : PutRolePolicyInput → Except AwsError Unit
  attachRolePolicy : String → String → Except AwsError Unit
  getRolePolicy : String → String → Except AwsError String

/-- Embeds `deleteAwsIamRolePolicyAttachments`: detach each managed policy in
turn; a `NoSuchEntity` failure on one element skips it (`continue`), any
other failure returns that error at once. -/
def deleteAwsIamRolePolicyAttachments (conn : Conn) (rolename : String) :
    List String → List ApiCall × Except AwsError Unit
  | [] => ([], .ok ())
  | parn :: rest =>
    let call := ApiCall.detachRolePolicy parn rolename
    match conn.detachRolePolicy parn rolename with
    | .ok _ =>
      let res := deleteAwsIamRolePolicyAttachments conn rolename rest
      (call :: res.1, res.2)
    | .error e =>
      if e.code = errCodeNoSuchEntity then
        let res := deleteAwsIamRolePolicyAttachments conn rolename rest
        (call :: res.1, res.2)
      else
        ([call], .error e)

/-- Embeds `deleteAwsIamRolePolicies`: delete each inline policy in turn; a
`NoSuchEntity` failure makes the whole function return success immediately
(`return nil`), any other failure returns that error. -/
def deleteAwsIamRolePolicies (conn : Conn) (rolename : String) :
    List String → List ApiCall × Except AwsError Unit
  | [] => ([], .ok ())
  | name :: rest =>
    let call := ApiCall.deleteRolePolicy name rolename
    match conn.deleteRolePolicy name rolename with
    | .ok _ =>
      let res := deleteAwsIamRolePolicies conn rolename rest
      (call :: res.1, res.2)
    | .error e =>
      if e.code = errCodeNoSuchEntity then
        ([call], .ok ())
      else
        ([call], .error e)

/-- Inner loop of `deleteAwsIamRoleInstanceProfiles`: remove the role from
each listed instance profile; `NoSuchEntity` on one profile skips it. -/
def removeRoleFromProfilesLoop (conn : Conn) (rolename : String) :
    List String → List ApiCall × Except AwsError Unit
  | [] => ([], .ok ())
  | p :: rest =>
    let call := ApiCall.removeRoleFromInstanceProfile p rolename
    match conn.removeRoleFromInstanceProfile p rolename with
    | .ok _ =>
      let res := removeRoleFromProfilesLoop conn rolename rest
      (call :: res.1, res.2)
    | .error e =>
      if e.code = errCodeNoSuchEntity then
        let res := removeRoleFromProfilesLoop conn rolename rest
        (call :: res.1, res.2)
      else
        ([call], .error e)

/-- Embeds `deleteAwsIamRoleInstanceProfiles`: list the profiles containing
the role (a `NoSuchEntity` listing error means done), then remove the role
from each. -/
def deleteAwsIamRoleInstanceProfiles (conn : Conn) (rolename : String) :
    List ApiCall × Except AwsError Unit :=
  let listCall := ApiCall.listInstanceProfilesForRole rolename
  match conn.listInstanceProfilesForRole rolename with
  | .error e =>
    if e.code = errCodeNoSuchEntity then ([listCall], .ok ())
    else ([listCall], .error e)
  | .ok profiles =>
    let res := removeRoleFromProfilesLoop conn rolename profiles
    (listCall :: res.1, res.2)

/-- Embeds `readAwsIamRolePolicyAttachments`: page through the attached
managed policies, collecting their ARNs; a `NoSuchEntity` error yields the
empty collection. -/
def readAwsIamRolePolicyAttachments (conn : Conn) (rolename : String) :
    List ApiCall × Except AwsError (List String) :=
  let call := ApiCall.listAttachedRolePolicies rolename
  match conn.listAttachedRolePolicies rolename with
  | .ok arns => ([call], .ok arns)
  | .error e =>
    if e.code = errCodeNoSuchEntity then ([call], .ok [])
    else ([call], .error e)

/-- Embeds `readAwsIamRolePolicyNames`: page through the role's inline policy
names; a `NoSuchEntity` error yields the empty collection. -/
def readAwsIamRolePolicyNames (conn : Conn) (rolename : String) :
    List ApiCall × Except AwsError (List String) :=
  let call := ApiCall.listRolePolicies rolename
  match conn.listRolePolicies rolename with
  | .ok names => ([call], .ok names)
  | .error e =>
    if e.code = errCodeNoSuchEntity then ([call], .ok [])
    else ([call], .error e)

/-- Outcome of `resource.Retry`, carrying the last call's output on
success. -/
inductive RetryOutcome (α : Type) where
  | ok (val : α)
  | nonRetryable (e : AwsError)
  | timedOut (e : AwsError)
deriving DecidableEq, Repr

/-- Embeds `resource.Retry(window, f)`: call `f` with successive attempt
indices, retrying while the error satisfies `retryable`; `fuel` is the number
of retries the window admits, and exhausting it while errors stay retryable
models the window elapsing (`TimeoutError`).  Returns the attempt indices
issued and the outcome. -/
def retryGo {α : Type} (f : ℕ → Except AwsError α) (retryable : AwsError → Bool) :
    ℕ → ℕ → List ℕ × RetryOutcome α
  | 0, i =>
    match f i with
    | .ok v => ([i], .ok v)
    | .error e =>
      if retryable e then ([i], .timedOut e) else ([i], .nonRetryable e)
  | fuel + 1, i =>
    match f i with
    | .ok v => ([i], .ok v)
    | .error e =>
      if retryable e then
        let res := retryGo f retryable fuel (i + 1)
        (i :: res.1, res.2)
      else
        ([i], .nonRetryable e)

/-- The `DeleteRole` retry loop of `deleteAwsIamRole` (lines 485-495): retry
while the error is `DeleteConflict`, within the `waiter.PropagationTimeout`
window. -/
def delRetry (conn : Conn) (rolename : String) (fuel : ℕ) :
    List ℕ × RetryOutcome Unit :=
  retryGo (fun i => conn.deleteRole rolename i)
    (fun e => e.code == errCodeDeleteConflict) fuel 0

/-- The `DeleteRole` phase of `deleteAwsIamRole` (lines 482-500): the retry
loop, plus one extra direct attempt when the retry window timed out
(`isResourceTimeoutError`). -/
def deleteRolePhase (conn : Conn) (rolename : String) (fuel : ℕ) :
    List ApiCall × Except AwsError Unit :=
  let retried := delRetry conn rolename fuel
  let delCalls := retried.1.map (fun i => ApiCall.deleteRole rolename i)
  match retried.2 with
  | .ok _ => (delCalls, .ok ())
  | .nonRetryable e => (delCalls, .error e)
  | .timedOut _ =>
    let next := retried.1.length
    match conn.deleteRole rolename next with
    | .ok _ => (delCalls ++ [ApiCall.deleteRole rolename next], .ok ())
    | .error e => (delCalls ++ [ApiCall.deleteRole rolename next], .error e)

/-- Embeds `deleteAwsIamRole`: detach instance profiles (unconditionally);
when `forceDetach` is set, additionally detach all managed policies and
delete all inline policies; then the `DeleteRole` phase. -/
def deleteAwsIamRole (conn : Conn) (rolename : String) (forceDetach : Bool)
    (fuel : ℕ) : List ApiCall × Except AwsError Unit :=
  match deleteAwsIamRoleInstanceProfiles conn rolename with
  | (tr1, .error e) => (tr1, .error e)
  | (tr1, .ok _) =>
    let step2 : List ApiCall × Except AwsError Unit :=
      if forceDetach then
        match readAwsIamRolePolicyAttachments conn rolename with
        | (ta, .error e) => (ta, .error e)
        | (ta, .ok managedPolicies) =>
          match deleteAwsIamRolePolicyAttachments conn rolename managedPolicies with
          | (tb, .error e) => (ta ++ tb, .error e)
          | (tb, .ok _) =>
            match readAwsIamRolePolicyNames conn rolename with
            | (tc, .error e) => (ta ++ tb ++ tc, .error e)
            | (tc, .ok inlinePolicies) =>
              let res := deleteAwsIamRolePolicies conn rolename inlinePolicies
              (ta ++ tb ++ tc ++ res.1, res.2)
      else ([], .ok ())
    match step2 with
    | (tr2, .error e) => (tr1 ++ tr2, .error e)
    | (tr2, .ok _) =>
      let res := deleteRolePhase conn rolename fuel
      (tr1 ++ tr2 ++ res.1, res.2)

/-- Embeds `resourceAwsIamRoleDelete`: run the cascade delete with the
resource's `force_detach_policies` flag; a `NoSuchEntity` error means the
role is already gone and is returned as success. -/
def resourceAwsIamRoleDelete (conn : Conn) (id : String)
    (forceDetachPolicies : Bool) (fuel : ℕ) :
    List ApiCall × Except AwsError Unit :=
  let res := deleteAwsIamRole conn id forceDetachPolicies fuel
  match res.2 with
  | .ok _ => (res.1, .ok ())
  | .error e =>
    if errCodeEquals (some e) errCodeNoSuchEntity then (res.1, .ok ())
    else (res.1, .error e)

/-- One element of the `inline_policy` set attribute, as the Terraform SDK
hands it to the provider: a map that always carries the three schema keys
(`name`, `name_prefix` — here `namePfx` —, `policy`), empty string when
unset. -/
structure InlinePolicyTF where
  name : String
  namePfx : String
  policy : String
deriving DecidableEq, Repr

/-- Embeds `expandIamInlinePolicy`: build a `PutRolePolicyInput` from one
`inline_policy` element.  The Go code checks map-key *presence* (`v, ok :=
tfMap["name"]`), and a Terraform set element always carries every schema
key, so the `name` branch is always taken and `PolicyName` is the element's
`name` value (possibly empty). -/
def expandIamInlinePolicy (roleName : String) (tfMap : InlinePolicyTF) :
    PutRolePolicyInput :=
  { roleName := some roleName
    policyDocument := some tfMap.policy
    policyName := some tfMap.name }

/-- Embeds `expandIamInlinePolicies`. -/
def expandIamInlinePolicies (roleName : String) (tfList : List InlinePolicyTF) :
    List PutRolePolicyInput :=
  tfList.map (expandIamInlinePolicy roleName)

/-- Embeds `flattenIamInlinePolicy` on a non-nil input: a map with the
policy's name and document, nil pointers flattening to `""`. -/
def flattenIamInlinePolicy (apiObject : PutRolePolicyInput) :
    String × String :=
  (stringValue apiObject.policyName, stringValue apiObject.policyDocument)

/-- Embeds `flattenIamInlinePolicies` (the nil elements the Go code skips
cannot arise in the model). -/
def flattenIamInlinePolicies (apiObjects : List PutRolePolicyInput) :
    List (String × String) :=
  apiObjects.map flattenIamInlinePolicy

/-- Embeds `resourceAwsIamRoleCreateInlinePolicies`: `PutRolePolicy` for
every element, collecting each failure into a `multierror` and continuing;
returns the trace and the collected failures in order. -/
def resourceAwsIamRoleCreateInlinePolicies (conn : Conn)
    (policies : List PutRolePolicyInput) : List ApiCall × List AwsError :=
  match policies with
  | [] => ([], [])
  | p :: rest =>
    let res := resourceAwsIamRoleCreateInlinePolicies conn rest
    match conn.putRolePolicy p with
    | .ok _ => (ApiCall.putRolePolicy p :: res.1, res.2)
    | .error e => (ApiCall.putRolePolicy p :: res.1, e :: res.2)

/-- Embeds `resourceAwsIamRoleAttachManagedPolicies`: `AttachRolePolicy` for
every ARN, collecting each failure into a `multierror` and continuing. -/
def resourceAwsIamRoleAttachManagedPolicies (conn : Conn) (roleName : String)
    (policies : List String) : List ApiCall × List AwsError :=
  match policies with
  | [] => ([], [])
  | arn :: rest =>
    let res := resourceAwsIamRoleAttachManagedPolicies conn roleName rest
    match conn.attachRolePolicy roleName arn with
    | .ok _ => (ApiCall.attachRolePolicy roleName arn :: res.1, res.2)
    | .error e => (ApiCall.attachRolePolicy roleName arn :: res.1, e :: res.2)

/-- The resource configuration as Create reads it: `d.GetOk` yields `none`
for attributes that are unset (or hold their zero value). -/
structure CreateConfig where
  name : Option String
  namePfx : Option String
  path : String
  assumeRolePolicy : String
  description : Option String
  maxSessionDuration : Option Int
  permissionsBoundary : Option String
  tags : List (String × String)
  inlinePolicy : List InlinePolicyTF
  managedPolicyArns : List String

/-- Lines 162-169 of the Create handler: the role name is the `name`
attribute when set, else `resource.PrefixedUniqueId(name_prefix)` (the
prefix followed by a fresh unique id, here the parameter `uniq`), else
`resource.UniqueId()`. -/
def chooseRoleName (cfg : CreateConfig) (uniq : String) : String :=
  match cfg.name with
  | some n => n
  | none =>
    match cfg.namePfx with
    | some p => p ++ uniq
    | none => uniq

/-- Lines 171-191 of the Create handler: build the `CreateRoleInput`. -/
def buildCreateRoleInput (cfg : CreateConfig) (name : String) : CreateRoleInput :=
  { path := cfg.path
    roleName := name
    assumeRolePolicyDocument := cfg.assumeRolePolicy
    description := cfg.description
    maxSessionDuration := cfg.maxSessionDuration
    permissionsBoundary := cfg.permissionsBoundary
    tags := cfg.tags }

/-- The retry window of the `CreateRole` loop, seconds
(`resource.Retry(30*time.Second, ...)`). -/
def createRoleRetryWindowSeconds : ℕ := 30

/-- The error predicate the `CreateRole` retry loop treats as retryable:
`isAWSErr(err, "MalformedPolicyDocument", "Invalid principal in policy")`
(IAM principal propagation delay). -/
def createRoleRetryableErr (e : AwsError) : Bool :=
  isAWSErr (some e) errCodeMalformedPolicyDocument "Invalid principal in policy"

/-- Result of the Create handler.  `ok` carries the id (`d.SetId(roleName)`)
the handler sets before its final Read; the model stops at that point. -/
inductive CreateResult where
  | ok (id : String)
  | createErr (e : AwsError)
  | inlineErrs (es : List AwsError)
  | managedErrs (es : List AwsError)
deriving DecidableEq, Repr

/-- The `CreateRole` retry loop of the Create handler (lines 194-206):
retry while the error is an "Invalid principal in policy"
`MalformedPolicyDocument`. -/
def createRetry (conn : Conn) (request : CreateRoleInput) (fuel : ℕ) :
    List ℕ × RetryOutcome String :=
  retryGo (conn.createRole request) createRoleRetryableErr fuel 0

/-- The `CreateRole` phase of the Create handler (lines 193-212): the retry
loop, plus one extra direct attempt when the 30-second window timed out
(`isResourceTimeoutError`). -/
def createRolePhase (conn : Conn) (request : CreateRoleInput) (fuel : ℕ) :
    List ApiCall × Except AwsError String :=
  let retried := createRetry conn request fuel
  let createCalls := retried.1.map (ApiCall.createRole request)
  match retried.2 with
  | .ok rn => (createCalls, .ok rn)
  | .nonRetryable e => (createCalls, .error e)
  | .timedOut _ =>
    let next := retried.1.length
    match conn.createRole request next with
    | .ok rn => (createCalls ++ [ApiCall.createRole request next], .ok rn)
    | .error e => (createCalls ++ [ApiCall.createRole request next], .error e)

/-- The inline-policy provisioning step of Create (lines 216-221): only
entered when the configured `inline_policy` set is non-empty. -/
def createInlineStep (conn : Conn) (cfg : CreateConfig) (roleName : String) :
    List ApiCall × List AwsError :=
  if cfg.inlinePolicy ≠ [] then
    resourceAwsIamRoleCreateInlinePolicies conn
      (expandIamInlinePolicies roleName cfg.inlinePolicy)
  else ([], [])

/-- The managed-policy attachment step of Create (lines 223-228): only
entered when the configured `managed_policy_arns` set is non-empty. -/
def createManagedStep (conn : Conn) (cfg : CreateConfig) (roleName : String) :
    List ApiCall × List AwsError :=
  if cfg.managedPolicyArns ≠ [] then
    resourceAwsIamRoleAttachManagedPolicies conn roleName cfg.managedPolicyArns
  else ([], [])

/-- Embeds `resourceAwsIamRoleCreate` (up to the final Read): the
`CreateRole` phase, then on success the inline-policy step, then the
managed-policy step. -/
def resourceAwsIamRoleCreate (conn : Conn) (cfg : CreateConfig) (uniq : String)
    (fuel : ℕ) : List ApiCall × CreateResult :=
  let request := buildCreateRoleInput cfg (chooseRoleName cfg uniq)
  match createRolePhase conn request fuel with
  | (tr, .error e) => (tr, .createErr e)
  | (tr, .ok roleName) =>
    match createInlineStep conn cfg roleName with
    | (ti, e :: es) => (tr ++ ti, .inlineErrs (e :: es))
    | (ti, []) =>
      match createManagedStep conn cfg roleName with
      | (tm, e :: es) => (tr ++ ti ++ tm, .managedErrs (e :: es))
      | (tm, []) => (tr ++ ti ++ tm, .ok roleName)

/-- Set-equality of element lists: Terraform's `HasChange` on a `TypeSet`
attribute compares the old and new sets as sets. -/
def sameSet {α : Type} [DecidableEq α] (xs ys : List α) : Bool :=
  (xs.all fun x => decide (x ∈ ys)) && (ys.all fun y => decide (y ∈ xs))

/-- Embeds `schema.Set.Difference`: the elements of `os` that are not in
`ns` (`os.Difference(ns).List()`). -/
def setDifference {α : Type} [DecidableEq α] (os ns : List α) : List α :=
  os.filter fun x => decide (x ∉ ns)

/-- The resource state as the Update handler reads it; set-valued attributes
are element lists with set semantics. -/
structure RoleState where
  name : String
  assumeRolePolicy : String
  description : String
  maxSessionDuration : Int
  permissionsBoundary : String
  tags : List (String × String)
  inlinePolicy : List InlinePolicyTF
  managedPolicyArns : List String
deriving DecidableEq, Repr

/-- The attributes the Update handler diffs. -/
inductive UpdAttr where
  | assumeRolePolicy
  | description
  | maxSessionDuration
  | permissionsBoundary
  | tags
  | inlinePolicy
  | managedPolicyArns
deriving DecidableEq, Repr

/-- Embeds `d.HasChange(attr)` between old state `o` and new state `n`. -/
def hasChange (o n : RoleState) : UpdAttr → Bool
  | .assumeRolePolicy => o.assumeRolePolicy ≠ n.assumeRolePolicy
  | .description => o.description ≠ n.description
  | .maxSessionDuration => o.maxSessionDuration ≠ n.maxSessionDuration
  | .permissionsBoundary => o.permissionsBoundary ≠ n.permissionsBoundary
  | .tags => o.tags ≠ n.tags
  | .inlinePolicy => ¬ sameSet o.inlinePolicy n.inlinePolicy
  | .managedPolicyArns => ¬ sameSet o.managedPolicyArns n.managedPolicyArns

/-- Result of one Update step / of the whole Update handler (before its
final Read): proceed, state cleared (`d.SetId("")` followed by `return
nil`), a single error, or a `multierror` of collected failures. -/
inductive UpdResult where
  | ok
  | cleared
  | err (e : AwsError)
  | multi (es : List AwsError)
deriving DecidableEq, Repr

/-- Sequence two Update steps: the second runs only when the first fell
through to the next `if` block. -/
def seqUpd (a : List ApiCall × UpdResult) (b : Unit → List ApiCall × UpdResult) :
    List ApiCall × UpdResult :=
  match a.2 with
  | .ok => let r := b (); (a.1 ++ r.1, r.2)
  | _ => a

/-- Update, `assume_role_policy` block: `UpdateAssumeRolePolicy` when
changed; `NoSuchEntity` clears the state. -/
def updAssumeRolePolicyStep (conn : Conn) (id : String) (o n : RoleState) :
    List ApiCall × UpdResult :=
  if hasChange o n .assumeRolePolicy then
    let call := ApiCall.updateAssumeRolePolicy id n.assumeRolePolicy
    match conn.updateAssumeRolePolicy id n.assumeRolePolicy with
    | .ok _ => ([call], .ok)
    | .error e =>
      if isAWSErr (some e) errCodeNoSuchEntity "" then ([call], .cleared)
      else ([call], .err e)
  else ([], .ok)

/-- Update, `description` block: `UpdateRoleDescription` when changed;
`NoSuchEntity` clears the state. -/
def updDescriptionStep (conn : Conn) (id : String) (o n : RoleState) :
    List ApiCall × UpdResult :=
  if hasChange o n .description then
    let call := ApiCall.updateRoleDescription id n.description
    match conn.updateRoleDescription id n.description with
    | .ok _ => ([call], .ok)
    | .error e =>
      if isAWSErr (some e) errCodeNoSuchEntity "" then ([call], .cleared)
      else ([call], .err e)
  else ([], .ok)

/-- Update, `max_session_duration` block: `UpdateRole` when changed;
`NoSuchEntity` clears the state. -/
def updMaxSessionStep (conn : Conn) (id : String) (o n : RoleState) :
    List ApiCall × UpdResult :=
  if hasChange o n .maxSessionDuration then
    let call := ApiCall.updateRole id n.maxSessionDuration
    match conn.updateRole id n.maxSessionDuration with
    | .ok _ => ([call], .ok)
    | .error e =>
      if isAWSErr (some e) errCodeNoSuchEntity "" then ([call], .cleared)
      else ([call], .err e)
  else ([], .ok)

/-- Update, `permissions_boundary` block: `PutRolePermissionsBoundary` when
the new value is non-empty, `DeleteRolePermissionsBoundary` when it is
empty; every error — `NoSuchEntity` included — is surfaced. -/
def updPermissionsBoundaryStep (conn : Conn) (id : String) (o n : RoleState) :
    List ApiCall × UpdResult :=
  if hasChange o n .permissionsBoundary then
    if n.permissionsBoundary ≠ "" then
      let call := ApiCall.putRolePermissionsBoundary id n.permissionsBoundary
      match conn.putRolePermissionsBoundary id n.permissionsBoundary with
      | .ok _ => ([call], .ok)
      | .error e => ([call], .err e)
    else
      let call := ApiCall.deleteRolePermissionsBoundary id
      match conn.deleteRolePermissionsBoundary id with
      | .ok _ => ([call], .ok)
      | .error e => ([call], .err e)
  else ([], .ok)

/-- Update, `tags` block: `keyvaluetags.IamRoleUpdateTags` when changed;
errors surfaced. -/
def updTagsStep (conn : Conn) (id : String) (o n : RoleState) :
    List ApiCall × UpdResult :=
  if hasChange o n .tags then
    let call := ApiCall.updateTags id
    match conn.updateTags id with
    | .ok _ => ([call], .ok)
    | .error e => ([call], .err e)
  else ([], .ok)

/-- The inline policies the Update handler removes: `os.Difference(ns)`. -/
def updInlineRemove (o n : RoleState) : List InlinePolicyTF :=
  setDifference o.inlinePolicy n.inlinePolicy

/-- The inline policies the Update handler adds: `ns.Difference(os)`. -/
def updInlineAdd (o n : RoleState) : List InlinePolicyTF :=
  setDifference n.inlinePolicy o.inlinePolicy

/-- Update, `inline_policy` block: delete the policies in `old − new` (by
name), then create the policies in `new − old`. -/
def updInlinePolicyStep (conn : Conn) (o n : RoleState) :
    List ApiCall × UpdResult :=
  if hasChange o n .inlinePolicy then
    let roleName := n.name
    let policyNames := (updInlineRemove o n).map fun p => p.name
    match deleteAwsIamRolePolicies conn roleName policyNames with
    | (t, .error e) => (t, .err e)
    | (t, .ok _) =>
      let policies := expandIamInlinePolicies roleName (updInlineAdd o n)
      match resourceAwsIamRoleCreateInlinePolicies conn policies with
      | (t2, []) => (t ++ t2, .ok)
      | (t2, e :: es) => (t ++ t2, .multi (e :: es))
  else ([], .ok)

/-- The managed-policy ARNs the Update handler detaches:
`os.Difference(ns)`. -/
def updManagedRemove (o n : RoleState) : List String :=
  setDifference o.managedPolicyArns n.managedPolicyArns

/-- The managed-policy ARNs the Update handler attaches:
`ns.Difference(os)`. -/
def updManagedAdd (o n : RoleState) : List String :=
  setDifference n.managedPolicyArns o.managedPolicyArns

/-- Update, `managed_policy_arns` block: detach the ARNs in `old − new`,
then attach the ARNs in `new − old`. -/
def updManagedArnsStep (conn : Conn) (o n : RoleState) :
    List ApiCall × UpdResult :=
  if hasChange o n .managedPolicyArns then
    let roleName := n.name
    match deleteAwsIamRolePolicyAttachments conn roleName (updManagedRemove o n) with
    | (t, .error e) => (t, .err e)
    | (t, .ok _) =>
      match resourceAwsIamRoleAttachManagedPolicies conn roleName (updManagedAdd o n) with
      | (t2, []) => (t ++ t2, .ok)
      | (t2, e :: es) => (t ++ t2, .multi (e :: es))
  else ([], .ok)

/-- Embeds `resourceAwsIamRoleUpdate` (up to its final Read): the seven
per-attribute blocks, in source order, each entered only when its attribute
changed, aborting on the first failing block. -/
def resourceAwsIamRoleUpdate (conn : Conn) (id : String) (o n : RoleState) :
    List ApiCall × UpdResult :=
  seqUpd (updAssumeRolePolicyStep conn id o n) fun _ =>
  seqUpd (updDescriptionStep conn id o n) fun _ =>
  seqUpd (updMaxSessionStep conn id o n) fun _ =>
  seqUpd (updPermissionsBoundaryStep conn id o n) fun _ =>
  seqUpd (updTagsStep conn id o n) fun _ =>
  seqUpd (updInlinePolicyStep conn o n) fun _ =>
  updManagedArnsStep conn o n

/-- Inner loop of `resourceAwsIamRoleListInlinePolicies`: `GetRolePolicy`
for each listed policy name, unescape the document, and build a
`PutRolePolicyInput` carrying the role name and the document — the
`PolicyName` field is never set.  `url.QueryUnescape` is modelled by the
total parameter `unescape`. -/
def listInlinePoliciesLoop (conn : Conn) (roleName : String)
    (unescape : String → String) :
    List String → List ApiCall × Except AwsError (List PutRolePolicyInput)
  | [] => ([], .ok [])
  | nm :: rest =>
    let call := ApiCall.getRolePolicy roleName nm
    match conn.getRolePolicy roleName nm with
    | .error e => ([call], .error e)
    | .ok doc =>
      match listInlinePoliciesLoop conn roleName unescape rest with
      | (t, .error e) => (call :: t, .error e)
      | (t, .ok objs) =>
        (call :: t,
          .ok ({ roleName := some roleName,
                 policyDocument := some (unescape doc) } :: objs))

/-- Embeds `resourceAwsIamRoleListInlinePolicies`. -/
def resourceAwsIamRoleListInlinePolicies (conn : Conn) (roleName : String)
    (unescape : String → String) :
    List ApiCall × Except AwsError (List PutRolePolicyInput) :=
  match readAwsIamRolePolicyNames conn roleName with
  | (t, .error e) => (t, .error e)
  | (t, .ok names) =>
    let res := listInlinePoliciesLoop conn roleName unescape names
    (t ++ res.1, res.2)

/-- The attributes the Read handler writes back into the resource state. -/
structure ReadState where
  arn : String
  createDate : String
  description : String
  maxSessionDuration : Int
  name : String
  path : String
  permissionsBoundary : Option String
  uniqueId : String
  tags : List (String × String)
  assumeRolePolicy : String
  inlinePolicy : List (String × String)
  managedPolicyArns : List String
deriving DecidableEq, Repr

/-- Result of the Read handler: state removed (`d.SetId("")`, no error),
state populated, or an error. -/
inductive ReadResult where
  | removed
  | ok (rs : ReadState)
  | err (e : AwsError)
deriving DecidableEq, Repr

/-- Embeds `resourceAwsIamRoleRead`: `GetRole` (a `NoSuchEntity` error, a
nil response, or a nil role removes the resource from state and succeeds),
then populate the attributes, list and flatten the inline policies, and read
the managed policy attachments. -/
def resourceAwsIamRoleRead (conn : Conn) (id : String)
    (unescape : String → String) : List ApiCall × ReadResult :=
  let call := ApiCall.getRole id
  match conn.getRole id with
  | .error e =>
    if isAWSErr (some e) errCodeNoSuchEntity "" then ([call], .removed)
    else ([call], .err e)
  | .ok none => ([call], .removed)
  | .ok (some role) =>
    match resourceAwsIamRoleListInlinePolicies conn role.roleName unescape with
    | (t, .error e) => (call :: t, .err e)
    | (t, .ok objs) =>
      match readAwsIamRolePolicyAttachments conn role.roleName with
      | (t2, .error e) => (call :: (t ++ t2), .err e)
      | (t2, .ok arns) =>
        (call :: (t ++ t2),
          .ok { arn := role.arn
                createDate := role.createDate
                description := stringValue role.description
                maxSessionDuration := role.maxSessionDuration
                name := role.roleName
                path := role.path
                permissionsBoundary := role.permissionsBoundaryArn
                uniqueId := role.roleId
                tags := role.tags
                assumeRolePolicy := unescape role.assumeRolePolicyDocument
                inlinePolicy := flattenIamInlinePolicies objs
                managedPolicyArns := arns })

/-- Flags of one schema attribute entry (the subset the claims inspect). -/
structure SchemaAttr where
  optional : Bool := false
  required : Bool := false
  computed : Bool := false
  forceNew : Bool := false
deriving DecidableEq, Repr

/-- The `aws_iam_role` schema map: each attribute's flags as declared in
`resourceAwsIamRole`. -/
def iamRoleSchema : String → Option SchemaAttr := fun attr =>
  if attr = "arn" then some { computed := true }
  else if attr = "unique_id" then some { computed := true }
  else if attr = "name" then
    some { optional := true, computed := true, forceNew := true }
  else if attr = "name_prefix" then some { optional := true, forceNew := true }
  else if attr = "path" then some { optional := true, forceNew := true }
  else if attr = "permissions_boundary" then some { optional := true }
  else if attr = "description" then some { optional := true }
  else if attr = "assume_role_policy" then some { required := true }
  else if attr = "force_detach_policies" then some { optional := true }
  else if attr = "create_date" then some { computed := true }
  else if attr = "max_session_duration" then some { optional := true }
  else if attr = "tags" then some { optional := true }
  else if attr = "inline_policy" then
    some { optional := true, computed := true }
  else if attr = "managed_policy_arns" then
    some { optional := true, computed := true }
  else none

/-- Whether an AWS API call can change the name of an existing role: none of
the operations this resource issues renames a role (`UpdateRole` changes only
`MaxSessionDuration`/`Description`, and IAM has no rename operation —
`CreateRole` creates a fresh role rather than renaming one). -/
def mutatesRoleName : ApiCall → Bool
  | .createRole _ _ => false
  | .getRole _ => false
  | .updateAssumeRolePolicy _ _ => false
  | .updateRoleDescription _ _ => false
  | .updateRole _ _ => false
  | .putRolePermissionsBoundary _ _ => false
  | .deleteRolePermissionsBoundary _ => false
  | .updateTags _ => false
  | .listInstanceProfilesForRole _ => false
  | .removeRoleFromInstanceProfile _ _ => false
  | .listAttachedRolePolicies _ => false
  | .detachRolePolicy _ _ => false
  | .listRolePolicies _ => false
  | .deleteRolePolicy _ _ => false
  | .deleteRole _ _ => false
  | .putRolePolicy _ => false
  | .attachRolePolicy _ _ => false
  | .getRolePolicy _ _ => false

/-- Calls issued while detaching instance profiles (step 1 of the cascade
delete). -/
def isProfileCall : ApiCall → Bool
  | .listInstanceProfilesForRole _ => true
  | .removeRoleFromInstanceProfile _ _ => true
  | _ => false

/-- Calls issued while detaching managed policies (step 2 of the cascade
delete). -/
def isManagedDetachCall : ApiCall → Bool
  | .listAttachedRolePolicies _ => true
  | .detachRolePolicy _ _ => true
  | _ => false

/-- Calls issued while deleting inline policies (step 3 of the cascade
delete). -/
def isInlineDeleteCall : ApiCall → Bool
  | .listRolePolicies _ => true
  | .deleteRolePolicy _ _ => true
  | _ => false

def isDeleteRoleCall : ApiCall → Bool
  | .deleteRole _ _ => true
  | _ => false

def isCreateRoleCall : ApiCall → Bool
  | .createRole _ _ => true
  | _ => false

def isPutRolePolicyCall : ApiCall → Bool
  | .putRolePolicy _ => true
  | _ => false

def isAttachRolePolicyCall : ApiCall → Bool
  | .attachRolePolicy _ _ => true
  | _ => false

def isDetachRolePolicyCall : ApiCall → Bool
  | .detachRolePolicy _ _ => true
  | _ => false

def isDeleteRolePolicyCall : ApiCall → Bool
  | .deleteRolePolicy _ _ => true
  | _ => false

/-- The Update-handler attribute an AWS mutation call belongs to (`none` for
reads and for calls Update never issues). -/
def attrOfCall : ApiCall → Option UpdAttr
  | .updateAssumeRolePolicy _ _ => some .assumeRolePolicy
  | .updateRoleDescription _ _ => some .description
  | .updateRole _ _ => some .maxSessionDuration
  | .putRolePermissionsBoundary _ _ => some .permissionsBoundary
  | .deleteRolePermissionsBoundary _ => some .permissionsBoundary
  | .updateTags _ => some .tags
  | .deleteRolePolicy _ _ => some .inlinePolicy
  | .putRolePolicy _ => some .inlinePolicy
  | .detachRolePolicy _ _ => some .managedPolicyArns
  | .attachRolePolicy _ _ => some .managedPolicyArns
  | _ => none

/-- The error of a unit call result, if any. -/
def errOf : Except AwsError Unit → Option AwsError
  | .ok _ => none
  | .error e => some e

lemma mem_deleteAttachments_trace (conn : Conn) (role : String) :
    ∀ ps c, c ∈ (deleteAwsIamRolePolicyAttachments conn role ps).1 →
      ∃ a, a ∈ ps ∧ c = ApiCall.detachRolePolicy a role := by
  intro ps
  induction ps with
  | nil => intro c hc; simp [deleteAwsIamRolePolicyAttachments] at hc
  | cons p rest ih =>
    intro c hc
    cases hres : conn.detachRolePolicy p role with
    | ok v =>
      simp only [deleteAwsIamRolePolicyAttachments, hres, List.mem_cons] at hc
      rcases hc with hc | hc
      · exact ⟨p, by simp, hc⟩
      · obtain ⟨a, ha, hca⟩ := ih c hc
        exact ⟨a, by simp [ha], hca⟩
    | error e =>
      simp only [deleteAwsIamRolePolicyAttachments, hres] at hc
      by_cases hcode : e.code = errCodeNoSuchEntity
      · rw [if_pos hcode] at hc
        simp only [List.mem_cons] at hc
        rcases hc with hc | hc
        · exact ⟨p, by simp, hc⟩
        · obtain ⟨a, ha, hca⟩ := ih c hc
          exact ⟨a, by simp [ha], hca⟩
      · rw [if_neg hcode] at hc
        simp only [List.mem_singleton] at hc
        exact ⟨p, by simp, hc⟩

lemma mem_deletePolicies_trace (conn : Conn) (role : String) :
    ∀ ps c, c ∈ (deleteAwsIamRolePolicies conn role ps).1 →
      ∃ nm, nm ∈ ps ∧ c = ApiCall.deleteRolePolicy nm role := by
  intro ps
  induction ps with
  | nil => intro c hc; simp [deleteAwsIamRolePolicies] at hc
  | cons p rest ih =>
    intro c hc
    cases hres : conn.deleteRolePolicy p role with
    | ok v =>
      simp only [deleteAwsIamRolePolicies, hres, List.mem_cons] at hc
      rcases hc with hc | hc
      · exact ⟨p, by simp, hc⟩
      · obtain ⟨nm, ha, hca⟩ := ih c hc
        exact ⟨nm, by simp [ha], hca⟩
    | error e =>
      simp only [deleteAwsIamRolePolicies, hres] at hc
      by_cases hcode : e.code = errCodeNoSuchEntity
      · rw [if_pos hcode] at hc
        simp only [List.mem_singleton] at hc
        exact ⟨p, by simp, hc⟩
      · rw [if_neg hcode] at hc
        simp only [List.mem_singleton] at hc
        exact ⟨p, by simp, hc⟩

lemma mem_removeProfilesLoop_trace (conn : Conn) (role : String) :
    ∀ ps c, c ∈ (removeRoleFromProfilesLoop conn role ps).1 →
      ∃ p, p ∈ ps ∧ c = ApiCall.removeRoleFromInstanceProfile p role := by
  intro ps
  induction ps with
  | nil => intro c hc; simp [removeRoleFromProfilesLoop] at hc
  | cons p rest ih =>
    intro c hc
    cases hres : conn.removeRoleFromInstanceProfile p role with
    | ok v =>
      simp only [removeRoleFromProfilesLoop, hres, List.mem_cons] at hc
      rcases hc with hc | hc
      · exact ⟨p, by simp, hc⟩
      · obtain ⟨q, ha, hca⟩ := ih c hc
        exact ⟨q, by simp [ha], hca⟩
    | error e =>
      simp only [removeRoleFromProfilesLoop, hres] at hc
      by_cases hcode : e.code = errCodeNoSuchEntity
      · rw [if_pos hcode] at hc
        simp only [List.mem_cons] at hc
        rcases hc with hc | hc
        · exact ⟨p, by simp, hc⟩
        · obtain ⟨q, ha, hca⟩ := ih c hc
          exact ⟨q, by simp [ha], hca⟩
      · rw [if_neg hcode] at hc
        simp only [List.mem_singleton] at hc
        exact ⟨p, by simp, hc⟩

lemma mem_instanceProfiles_trace (conn : Conn) (role : String) (c : ApiCall)
    (hc : c ∈ (deleteAwsIamRoleInstanceProfiles conn role).1) :
    isProfileCall c = true := by
  cases hres : conn.listInstanceProfilesForRole role with
  | ok profiles =>
    simp only [deleteAwsIamRoleInstanceProfiles, hres, List.mem_cons] at hc
    rcases hc with hc | hc
    · subst hc; rfl
    · obtain ⟨p, _, hcp⟩ := mem_removeProfilesLoop_trace conn role profiles c hc
      subst hcp; rfl
  | error e =>
    simp only [deleteAwsIamRoleInstanceProfiles, hres] at hc
    by_cases hcode : e.code = errCodeNoSuchEntity
    · rw [if_pos hcode] at hc
      simp only [List.mem_singleton] at hc
      subst hc; rfl
    · rw [if_neg hcode] at hc
      simp only [List.mem_singleton] at hc
      subst hc; rfl

lemma readAttachments_trace (conn : Conn) (role : String) :
    (readAwsIamRolePolicyAttachments conn role).1 =
      [ApiCall.listAttachedRolePolicies role] := by
  unfold readAwsIamRolePolicyAttachments
  cases conn.listAttachedRolePolicies role with
  | ok _ => rfl
  | error e =>
    by_cases hcode : e.code = errCodeNoSuchEntity
    · simp [hcode]
    · simp [hcode]

lemma readPolicyNames_trace (conn : Conn) (role : String) :
    (readAwsIamRolePolicyNames conn role).1 =
      [ApiCall.listRolePolicies role] := by
  unfold readAwsIamRolePolicyNames
  cases conn.listRolePolicies role with
  | ok _ => rfl
  | error e =>
    by_cases hcode : e.code = errCodeNoSuchEntity
    · simp [hcode]
    · simp [hcode]

lemma createInlinePolicies_spec (conn : Conn) :
    ∀ ps, (resourceAwsIamRoleCreateInlinePolicies conn ps).1 =
        ps.map ApiCall.putRolePolicy ∧
      (resourceAwsIamRoleCreateInlinePolicies conn ps).2 =
        ps.filterMap fun p => errOf (conn.putRolePolicy p) := by
  intro ps
  induction ps with
  | nil => simp [resourceAwsIamRoleCreateInlinePolicies]
  | cons p rest ih =>
    simp only [resourceAwsIamRoleCreateInlinePolicies]
    cases hres : conn.putRolePolicy p with
    | ok v => simp [List.filterMap_cons, errOf, hres, ih.1, ih.2]
    | error e => simp [List.filterMap_cons, errOf, hres, ih.1, ih.2]

lemma attachManagedPolicies_spec (conn : Conn) (role : String) :
    ∀ ps, (resourceAwsIamRoleAttachManagedPolicies conn role ps).1 =
        ps.map (ApiCall.attachRolePolicy role) ∧
      (resourceAwsIamRoleAttachManagedPolicies conn role ps).2 =
        ps.filterMap fun a => errOf (conn.attachRolePolicy role a) := by
  intro ps
  induction ps with
  | nil => simp [resourceAwsIamRoleAttachManagedPolicies]
  | cons p rest ih =>
    simp only [resourceAwsIamRoleAttachManagedPolicies]
    cases hres : conn.attachRolePolicy role p with
    | ok v => simp [List.filterMap_cons, errOf, hres, ih.1, ih.2]
    | error e => simp [List.filterMap_cons, errOf, hres, ih.1, ih.2]

/-- A connection whose every call succeeds (lists come back empty). -/
def okConn : Conn where
  createRole := fun _ _ => .ok "r"
  getRole := fun _ => .ok none
  updateAssumeRolePolicy := fun _ _ => .ok ()
  updateRoleDescription := fun _ _ => .ok ()
  updateRole := fun _ _ => .ok ()
  putRolePermissionsBoundary := fun _ _ => .ok ()
  deleteRolePermissionsBoundary := fun _ => .ok ()
  updateTags := fun _ => .ok ()
  listInstanceProfilesForRole := fun _ => .ok []
  removeRoleFromInstanceProfile := fun _ _ => .ok ()
  listAttachedRolePolicies := fun _ => .ok []
  detachRolePolicy := fun _ _ => .ok ()
  listRolePolicies := fun _ => .ok []
  deleteRolePolicy := fun _ _ => .ok ()
  deleteRole := fun _ _ => .ok ()
  putRolePolicy := fun _ => .ok ()
  attachRolePolicy := fun _ _ => .ok ()
  getRolePolicy := fun _ _ => .ok "doc"

/-- A `NoSuchEntity` error. -/
def nseErr : AwsError := { code := "NoSuchEntity", message := "not found" }

/-- An error whose code is not one of the specially handled ones. -/
def adErr : AwsError := { code := "AccessDenied", message := "denied" }

/-- Claim C10: on a non-empty policy list, `deleteAwsIamRolePolicies` hitting
a `NoSuchEntity` failure returns success immediately, having issued only the
failing call, so the remaining policies are not deleted; whereas
`deleteAwsIamRolePolicyAttachments` hitting `NoSuchEntity` skips only the
failing element and continues with the rest of the list. -/
theorem claim_C10 (conn : Conn) (role nm parn : String)
    (restD restA : List String) (e1 e2 : AwsError)
    (h1 : conn.deleteRolePolicy nm role = .error e1)
    (h2 : e1.code = errCodeNoSuchEntity)
    (h3 : conn.detachRolePolicy parn role = .error e2)
    (h4 : e2.code = errCodeNoSuchEntity) :
    deleteAwsIamRolePolicies conn role (nm :: restD) =
      ([ApiCall.deleteRolePolicy nm role], .ok ()) ∧
    deleteAwsIamRolePolicyAttachments conn role (parn :: restA) =
      (ApiCall.detachRolePolicy parn role ::
        (deleteAwsIamRolePolicyAttachments conn role restA).1,
       (deleteAwsIamRolePolicyAttachments conn role restA).2) := by
  constructor
  · simp [deleteAwsIamRolePolicies, h1, h2]
  · simp [deleteAwsIamRolePolicyAttachments, h3, h4]

/-- A connection on which both inline deletion and managed detachment answer
`NoSuchEntity`. -/
def connNse : Conn :=
  { okConn with
    deleteRolePolicy := fun _ _ => .error nseErr
    detachRolePolicy := fun _ _ => .error nseErr }

/-- Witness for C10 at a concrete two-element list. -/
theorem claim_C10_witness :
    deleteAwsIamRolePolicies connNse "r" ["p1", "p2"] =
      ([ApiCall.deleteRolePolicy "p1" "r"], .ok ()) ∧
    deleteAwsIamRolePolicyAttachments connNse "r" ["a1", "a2"] =
      (ApiCall.detachRolePolicy "a1" "r" ::
        (deleteAwsIamRolePolicyAttachments connNse "r" ["a2"]).1,
       (deleteAwsIamRolePolicyAttachments connNse "r" ["a2"]).2) :=
  claim_C10 connNse "r" "p1" "a1" ["p2"] ["a2"] nseErr nseErr rfl rfl rfl rfl

/-- A connection on which detaching the managed policy `a1` fails with
`AccessDenied` and every other call succeeds. -/
def connDetachFail : Conn :=
  { okConn with
    detachRolePolicy := fun a _ => if a = "a1" then .error adErr else .ok () }

/-- Counterexample to C2: with two managed policies to detach and a
non-`NoSuchEntity` failure on the first, the bulk detach stops — the second
policy is never attempted and the single error is returned alone rather than
aggregated. -/
theorem claim_C2_counterexample :
    deleteAwsIamRolePolicyAttachments connDetachFail "r" ["a1", "a2"] =
      ([ApiCall.detachRolePolicy "a1" "r"], .error adErr) := by
  rfl

/-- Claim C2 (amended): the bulk *attach* operations — inline policy
creation and managed policy attachment — attempt every element and collect
all per-element failures into one combined error; the bulk *detach* of
managed policies instead stops at the first failure whose code is not
`NoSuchEntity` and reports only that error. -/
theorem claim_C2_amended (conn : Conn) (role parn : String)
    (ps : List PutRolePolicyInput) (arns rest : List String) (e : AwsError)
    (h1 : conn.detachRolePolicy parn role = .error e)
    (h2 : e.code ≠ errCodeNoSuchEntity) :
    (resourceAwsIamRoleCreateInlinePolicies conn ps).1 =
      ps.map ApiCall.putRolePolicy ∧
    (resourceAwsIamRoleCreateInlinePolicies conn ps).2 =
      (ps.filterMap fun p => errOf (conn.putRolePolicy p)) ∧
    (resourceAwsIamRoleAttachManagedPolicies conn role arns).1 =
      arns.map (ApiCall.attachRolePolicy role) ∧
    (resourceAwsIamRoleAttachManagedPolicies conn role arns).2 =
      (arns.filterMap fun a => errOf (conn.attachRolePolicy role a)) ∧
    deleteAwsIamRolePolicyAttachments conn role (parn :: rest) =
      ([ApiCall.detachRolePolicy parn role], .error e) := by
  refine ⟨(createInlinePolicies_spec conn ps).1,
    (createInlinePolicies_spec conn ps).2,
    (attachManagedPolicies_spec conn role arns).1,
    (attachManagedPolicies_spec conn role arns).2, ?_⟩
  simp [deleteAwsIamRolePolicyAttachments, h1, h2]

/-- Witness for the amended C2 at concrete inputs. -/
theorem claim_C2_amended_witness :
    (resourceAwsIamRoleCreateInlinePolicies connDetachFail []).1 =
      List.map ApiCall.putRolePolicy [] ∧
    (resourceAwsIamRoleCreateInlinePolicies connDetachFail []).2 =
      (List.filterMap (fun p => errOf (connDetachFail.putRolePolicy p)) []) ∧
    (resourceAwsIamRoleAttachManagedPolicies connDetachFail "r" ["b1"]).1 =
      List.map (ApiCall.attachRolePolicy "r") ["b1"] ∧
    (resourceAwsIamRoleAttachManagedPolicies connDetachFail "r" ["b1"]).2 =
      (List.filterMap (fun a => errOf (connDetachFail.attachRolePolicy "r" a)) ["b1"]) ∧
    deleteAwsIamRolePolicyAttachments connDetachFail "r" ["a1", "a2"] =
      ([ApiCall.detachRolePolicy "a1" "r"], .error adErr) :=
  claim_C2_amended connDetachFail "r" "a1" [] ["b1"] ["a2"] adErr rfl
    (by decide)

lemma deleteAttachments_allok (conn : Conn) (role : String)
    (h : ∀ x, conn.detachRolePolicy x role = .ok ()) :
    ∀ ps, deleteAwsIamRolePolicyAttachments conn role ps =
      (ps.map fun x => ApiCall.detachRolePolicy x role, .ok ()) := by
  intro ps
  induction ps with
  | nil => simp [deleteAwsIamRolePolicyAttachments]
  | cons p rest ih => simp [deleteAwsIamRolePolicyAttachments, h p, ih]

/-- Claim C3: the Update handler removes exactly the elements of the old set
that are absent from the new set and adds exactly the elements of the new
set absent from the old one — for inline policies and managed-policy ARNs
alike; an element present in both sets is neither removed nor added, and
(when every detach succeeds) the managed-policy block's calls are exactly
one detach per removed ARN followed by one attach per added ARN. -/
theorem claim_C3 (conn : Conn) (o n : RoleState) (p : InlinePolicyTF)
    (a : String) :
    (p ∈ updInlineRemove o n ↔ p ∈ o.inlinePolicy ∧ p ∉ n.inlinePolicy) ∧
    (p ∈ updInlineAdd o n ↔ p ∈ n.inlinePolicy ∧ p ∉ o.inlinePolicy) ∧
    (a ∈ updManagedRemove o n ↔
      a ∈ o.managedPolicyArns ∧ a ∉ n.managedPolicyArns) ∧
    (a ∈ updManagedAdd o n ↔
      a ∈ n.managedPolicyArns ∧ a ∉ o.managedPolicyArns) ∧
    (p ∈ o.inlinePolicy → p ∈ n.inlinePolicy →
      p ∉ updInlineRemove o n ∧ p ∉ updInlineAdd o n) ∧
    (a ∈ o.managedPolicyArns → a ∈ n.managedPolicyArns →
      a ∉ updManagedRemove o n ∧ a ∉ updManagedAdd o n) ∧
    ((∀ x, conn.detachRolePolicy x n.name = .ok ()) →
      hasChange o n .managedPolicyArns = true →
      (updManagedArnsStep conn o n).1 =
        ((updManagedRemove o n).map fun x => ApiCall.detachRolePolicy x n.name) ++
        (updManagedAdd o n).map (ApiCall.attachRolePolicy n.name)) := by
  refine ⟨?_, ?_, ?_, ?_, ?_, ?_, ?_⟩
  · simp [updInlineRemove, setDifference, List.mem_filter]
  · simp [updInlineAdd, setDifference, List.mem_filter]
  · simp [updManagedRemove, setDifference, List.mem_filter]
  · simp [updManagedAdd, setDifference, List.mem_filter]
  · intro h1 h2
    constructor
    · simp [updInlineRemove, setDifference, List.mem_filter, h2]
    · simp [updInlineAdd, setDifference, List.mem_filter, h1]
  · intro h1 h2
    constructor
    · simp [updManagedRemove, setDifference, List.mem_filter, h2]
    · simp [updManagedAdd, setDifference, List.mem_filter, h1]
  · intro hd hch
    have hdel := deleteAttachments_allok conn n.name hd (updManagedRemove o n)
    have hat := attachManagedPolicies_spec conn n.name (updManagedAdd o n)
    unfold updManagedArnsStep
    rw [if_pos hch]
    rcases hres : resourceAwsIamRoleAttachManagedPolicies conn n.name
      (updManagedAdd o n) with ⟨t2, errs⟩
    rw [hres] at hat
    cases errs with
    | nil =>
      have ht2 := hat.1
      simp at ht2
      simp only [hdel, hres]
      rw [ht2]
    | cons e es =>
      have ht2 := hat.1
      simp at ht2
      simp only [hdel, hres]
      rw [ht2]

/-- Old managed-policy state for the C3 witness. -/
def oC3 : RoleState :=
  { name := "r", assumeRolePolicy := "p", description := "",
    maxSessionDuration := 3600, permissionsBoundary := "", tags := [],
    inlinePolicy := [], managedPolicyArns := ["a", "b"] }

/-- New managed-policy state for the C3 witness. -/
def nC3 : RoleState :=
  { name := "r", assumeRolePolicy := "p", description := "",
    maxSessionDuration := 3600, permissionsBoundary := "", tags := [],
    inlinePolicy := [], managedPolicyArns := ["b", "c"] }

/-- Witness for C3: `b` sits in both sets and is neither detached nor
attached, and the block's calls are detach `a` then attach `c`. -/
theorem claim_C3_witness :
    ("b" ∉ updManagedRemove oC3 nC3 ∧ "b" ∉ updManagedAdd oC3 nC3) ∧
    (updManagedArnsStep okConn oC3 nC3).1 =
      ((updManagedRemove oC3 nC3).map fun x =>
        ApiCall.detachRolePolicy x nC3.name) ++
      (updManagedAdd oC3 nC3).map (ApiCall.attachRolePolicy nC3.name) :=
  ⟨(claim_C3 okConn oC3 nC3 ⟨"n", "", "d"⟩ "b").2.2.2.2.2.1
      (by decide) (by decide),
    (claim_C3 okConn oC3 nC3 ⟨"n", "", "d"⟩ "b").2.2.2.2.2.2
      (fun x => rfl) (by decide)⟩

lemma listInlineLoop_policyName (conn : Conn) (role : String)
    (unescape : String → String) :
    ∀ names objs,
      (listInlinePoliciesLoop conn role unescape names).2 = .ok objs →
      ∀ obj ∈ objs, obj.policyName = none := by
  intro names
  induction names with
  | nil =>
    intro objs h
    simp only [listInlinePoliciesLoop] at h
    cases h
    intro obj hobj
    simp at hobj
  | cons nm rest ih =>
    intro objs h
    cases hres : conn.getRolePolicy role nm with
    | error e => simp [listInlinePoliciesLoop, hres] at h
    | ok doc =>
      rcases hrec : listInlinePoliciesLoop conn role unescape rest with ⟨t, r⟩
      cases r with
      | error e => simp [listInlinePoliciesLoop, hres, hrec] at h
      | ok objs2 =>
        simp only [listInlinePoliciesLoop, hres, hrec] at h
        cases h
        intro obj hobj
        simp only [List.mem_cons] at hobj
        rcases hobj with hobj | hobj
        · subst hobj; rfl
        · exact ih objs2 (by rw [hrec]) obj hobj

lemma listInline_policyName (conn : Conn) (role : String)
    (unescape : String → String) (objs : List PutRolePolicyInput)
    (h : (resourceAwsIamRoleListInlinePolicies conn role unescape).2 = .ok objs) :
    ∀ obj ∈ objs, obj.policyName = none := by
  rcases hnames : readAwsIamRolePolicyNames conn role with ⟨t, r⟩
  cases r with
  | error e =>
    simp only [resourceAwsIamRoleListInlinePolicies, hnames] at h
    cases h
  | ok names =>
    simp only [resourceAwsIamRoleListInlinePolicies, hnames] at h
    exact listInlineLoop_policyName conn role unescape names objs h

lemma flatten_name_empty (objs : List PutRolePolicyInput)
    (h : ∀ obj ∈ objs, obj.policyName = none) :
    ∀ m ∈ flattenIamInlinePolicies objs, m.1 = "" := by
  intro m hm
  simp only [flattenIamInlinePolicies, List.mem_map] at hm
  obtain ⟨obj, hobj, hflat⟩ := hm
  subst hflat
  simp [flattenIamInlinePolicy, h obj hobj, stringValue]

lemma read_ok_inlinePolicy (conn : Conn) (id0 : String)
    (unescape : String → String) (rs : ReadState)
    (h : (resourceAwsIamRoleRead conn id0 unescape).2 = .ok rs) :
    ∃ role objs,
      (resourceAwsIamRoleListInlinePolicies conn role unescape).2 = .ok objs ∧
      rs.inlinePolicy = flattenIamInlinePolicies objs := by
  cases hget : conn.getRole id0 with
  | error e =>
    simp only [resourceAwsIamRoleRead, hget] at h
    by_cases hcode : isAWSErr (some e) errCodeNoSuchEntity "" = true
    · rw [if_pos hcode] at h; cases h
    · rw [if_neg hcode] at h; cases h
  | ok roleOpt =>
    cases roleOpt with
    | none => simp only [resourceAwsIamRoleRead, hget] at h; cases h
    | some role =>
      rcases hlist : resourceAwsIamRoleListInlinePolicies conn role.roleName
        unescape with ⟨t, r⟩
      cases r with
      | error e =>
        simp only [resourceAwsIamRoleRead, hget, hlist] at h
        cases h
      | ok objs =>
        rcases hatt : readAwsIamRolePolicyAttachments conn role.roleName
          with ⟨t2, r2⟩
        cases r2 with
        | error e =>
          simp only [resourceAwsIamRoleRead, hget, hlist, hatt] at h
          cases h
        | ok arns =>
          simp only [resourceAwsIamRoleRead, hget, hlist, hatt] at h
          cases h
          exact ⟨role.roleName, objs, by rw [hlist], rfl⟩

/-- Claim C9: every inline policy fetched by
`resourceAwsIamRoleListInlinePolicies` is built without `PolicyName`, so
`flattenIamInlinePolicy` maps each one to a state entry whose name value is
the empty string — and the inline-policy list a successful Read writes into
state therefore consists solely of empty-named entries. -/
theorem claim_C9 (conn : Conn) (id0 roleName : String)
    (unescape : String → String) (objs : List PutRolePolicyInput)
    (rs : ReadState)
    (h1 : (resourceAwsIamRoleListInlinePolicies conn roleName unescape).2 =
      .ok objs)
    (h2 : (resourceAwsIamRoleRead conn id0 unescape).2 = .ok rs) :
    (∀ m ∈ flattenIamInlinePolicies objs, m.1 = "") ∧
    (∀ m ∈ rs.inlinePolicy, m.1 = "") := by
  constructor
  · exact flatten_name_empty objs (listInline_policyName conn roleName unescape objs h1)
  · obtain ⟨role2, objs2, hobjs2, heq⟩ :=
      read_ok_inlinePolicy conn id0 unescape rs h2
    rw [heq]
    exact flatten_name_empty objs2
      (listInline_policyName conn role2 unescape objs2 hobjs2)

/-- A remote role for the C9 witness. -/
def sampleRole : RemoteRole :=
  { arn := "arn", createDate := "d", description := none,
    maxSessionDuration := 3600, roleName := "r", path := "/",
    permissionsBoundaryArn := none, roleId := "u", tags := [],
    assumeRolePolicyDocument := "pol" }

/-- A connection holding one role with one inline policy named `p1`. -/
def connRead : Conn :=
  { okConn with
    getRole := fun _ => .ok (some sampleRole)
    listRolePolicies := fun _ => .ok ["p1"] }

/-- Witness for C9: reading the role with inline policy `p1` yields a state
entry whose name is empty. -/
theorem claim_C9_witness :
    (∀ m ∈ flattenIamInlinePolicies
      [{ roleName := some "r", policyDocument := some "doc" }], m.1 = "") ∧
    (∀ m ∈ (ReadState.mk "arn" "d" "" 3600 "r" "/" none "u" [] "pol"
      [("", "doc")] []).inlinePolicy, m.1 = "") :=
  claim_C9 connRead "r" "r" (fun s => s)
    [{ roleName := some "r", policyDocument := some "doc" }]
    (ReadState.mk "arn" "d" "" 3600 "r" "/" none "u" [] "pol"
      [("", "doc")] []) rfl rfl


lemma retryGo_head {α : Type} (f : ℕ → Except AwsError α)
    (r : AwsError → Bool) (fuel i : ℕ) :
    ∃ rest, (retryGo f r fuel i).1 = i :: rest := by
  cases fuel with
  | zero =>
    cases hf : f i with
    | ok v => exact ⟨[], by simp [retryGo, hf]⟩
    | error e =>
      by_cases hr : r e = true
      · exact ⟨[], by simp [retryGo, hf, hr]⟩
      · exact ⟨[], by simp [retryGo, hf, hr]⟩
  | succ fuel =>
    cases hf : f i with
    | ok v => exact ⟨[], by simp [retryGo, hf]⟩
    | error e =>
      by_cases hr : r e = true
      · exact ⟨(retryGo f r fuel (i + 1)).1, by simp [retryGo, hf, hr]⟩
      · exact ⟨[], by simp [retryGo, hf, hr]⟩

lemma retryGo_trace_range {α : Type} (f : ℕ → Except AwsError α)
    (r : AwsError → Bool) :
    ∀ fuel i, ∃ k, 1 ≤ k ∧ k ≤ fuel + 1 ∧
      (retryGo f r fuel i).1 = List.range' i k := by
  intro fuel
  induction fuel with
  | zero =>
    intro i
    refine ⟨1, le_refl 1, le_refl 1, ?_⟩
    cases hf : f i with
    | ok v => simp [retryGo, hf]
    | error e =>
      by_cases hr : r e = true
      · simp [retryGo, hf, hr]
      · simp [retryGo, hf, hr]
  | succ fuel ih =>
    intro i
    cases hf : f i with
    | ok v => exact ⟨1, le_refl 1, by omega, by simp [retryGo, hf]⟩
    | error e =>
      by_cases hr : r e = true
      · obtain ⟨k, hk1, hk2, hkeq⟩ := ih (i + 1)
        refine ⟨k + 1, by omega, by omega, ?_⟩
        have hsucc : List.range' i (k + 1) = i :: List.range' (i + 1) k := by
          have := List.range'_succ i k 1
          simpa using this
        simp [retryGo, hf, hr, hkeq, hsucc]
      · exact ⟨1, le_refl 1, by omega, by simp [retryGo, hf, hr]⟩

lemma retryGo_mem_ge {α : Type} (f : ℕ → Except AwsError α)
    (r : AwsError → Bool) (fuel i j : ℕ)
    (hj : j ∈ (retryGo f r fuel i).1) : i ≤ j := by
  obtain ⟨k, _, _, hkeq⟩ := retryGo_trace_range f r fuel i
  rw [hkeq] at hj
  exact (List.mem_range'_1.mp hj).1

lemma retryGo_mem_succ {α : Type} (f : ℕ → Except AwsError α)
    (r : AwsError → Bool) :
    ∀ fuel i j, i ≤ j → (j + 1) ∈ (retryGo f r fuel i).1 →
      ∃ e, f j = .error e ∧ r e = true := by
  intro fuel
  induction fuel with
  | zero =>
    intro i j hij hmem
    exfalso
    cases hf : f i with
    | ok v => simp [retryGo, hf] at hmem; omega
    | error e =>
      by_cases hr : r e = true
      · simp [retryGo, hf, hr] at hmem; omega
      · simp [retryGo, hf, hr] at hmem; omega
  | succ fuel ih =>
    intro i j hij hmem
    cases hf : f i with
    | ok v => simp [retryGo, hf] at hmem; omega
    | error e =>
      by_cases hr : r e = true
      · simp only [retryGo, hf, hr, if_pos, List.mem_cons] at hmem
        rcases hmem with hmem | hmem
        · omega
        · by_cases hij2 : i + 1 ≤ j
          · exact ih (i + 1) j hij2 hmem
          · have : j = i := by omega
            subst this
            exact ⟨e, hf, hr⟩
      · simp [retryGo, hf, hr] at hmem; omega

lemma retryGo_timedOut_last {α : Type} (f : ℕ → Except AwsError α)
    (r : AwsError → Bool) :
    ∀ fuel i e, (retryGo f r fuel i).2 = .timedOut e →
      ∃ j, (retryGo f r fuel i).1.length + i = j + 1 ∧
        f j = .error e ∧ r e = true := by
  intro fuel
  induction fuel with
  | zero =>
    intro i e h
    cases hf : f i with
    | ok v => simp [retryGo, hf] at h
    | error e2 =>
      by_cases hr : r e2 = true
      · simp only [retryGo, hf, if_pos hr] at h ⊢
        cases h
        exact ⟨i, by simp [Nat.add_comm], hf, hr⟩
      · simp [retryGo, hf, hr] at h
  | succ fuel ih =>
    intro i e h
    cases hf : f i with
    | ok v => simp [retryGo, hf] at h
    | error e2 =>
      by_cases hr : r e2 = true
      · simp only [retryGo, hf, if_pos hr] at h ⊢
        obtain ⟨j, hj1, hj2, hj3⟩ := ih (i + 1) e h
        exact ⟨j, by simp [List.length_cons]; omega, hj2, hj3⟩
      · simp [retryGo, hf, hr] at h

lemma retryGo_next {α : Type} (f : ℕ → Except AwsError α)
    (r : AwsError → Bool) :
    ∀ fuel i j e, j ∈ (retryGo f r fuel i).1 → f j = .error e →
      r e = true →
      (j + 1) ∈ (retryGo f r fuel i).1 ∨
        ((retryGo f r fuel i).2 = .timedOut e ∧
          (retryGo f r fuel i).1.length + i = j + 1) := by
  intro fuel
  induction fuel with
  | zero =>
    intro i j e hmem herr hr
    cases hf : f i with
    | ok v =>
      simp [retryGo, hf] at hmem
      subst hmem
      rw [hf] at herr
      cases herr
    | error e2 =>
      by_cases hr2 : r e2 = true
      · simp only [retryGo, hf, if_pos hr2, List.mem_singleton] at hmem ⊢
        subst hmem
        rw [hf] at herr
        cases herr
        exact Or.inr ⟨rfl, by simp [Nat.add_comm]⟩
      · simp only [retryGo, hf, if_neg hr2, List.mem_singleton] at hmem
        subst hmem
        rw [hf] at herr
        cases herr
        rw [hr] at hr2
        exact absurd rfl hr2
  | succ fuel ih =>
    intro i j e hmem herr hr
    cases hf : f i with
    | ok v =>
      simp [retryGo, hf] at hmem
      subst hmem
      rw [hf] at herr
      cases herr
    | error e2 =>
      by_cases hr2 : r e2 = true
      · simp only [retryGo, hf, if_pos hr2, List.mem_cons] at hmem ⊢
        rcases hmem with hmem | hmem
        · subst hmem
          obtain ⟨rest, hrest⟩ := retryGo_head f r fuel (j + 1)
          exact Or.inl (Or.inr (by rw [hrest]; simp))
        · rcases ih (i + 1) j e hmem herr hr with hin | ⟨hto, hlen⟩
          · exact Or.inl (Or.inr hin)
          · refine Or.inr ⟨hto, ?_⟩
            simp only [List.length_cons]
            omega
      · simp only [retryGo, hf, if_neg hr2, List.mem_singleton] at hmem
        subst hmem
        rw [hf] at herr
        cases herr
        rw [hr] at hr2
        exact absurd rfl hr2

lemma deleteRolePhase_trace (conn : Conn) (rolename : String) (fuel : ℕ) :
    (deleteRolePhase conn rolename fuel).1 =
      ((delRetry conn rolename fuel).1.map
        fun i => ApiCall.deleteRole rolename i) ++
      (match (delRetry conn rolename fuel).2 with
        | .timedOut _ =>
          [ApiCall.deleteRole rolename (delRetry conn rolename fuel).1.length]
        | _ => []) := by
  rcases hA : delRetry conn rolename fuel with ⟨attempts, outcome⟩
  cases outcome with
  | ok v => simp [deleteRolePhase, hA]
  | nonRetryable e => simp [deleteRolePhase, hA]
  | timedOut e =>
    cases hdir : conn.deleteRole rolename attempts.length with
    | ok v => simp [deleteRolePhase, hA, hdir]
    | error e2 => simp [deleteRolePhase, hA, hdir]

lemma delRetry_len (conn : Conn) (rolename : String) (fuel : ℕ) :
    (delRetry conn rolename fuel).1.length ≤ fuel + 1 := by
  obtain ⟨k, _, hk2, hkeq⟩ := retryGo_trace_range
    (fun i => conn.deleteRole rolename i)
    (fun e => e.code == errCodeDeleteConflict) fuel 0
  unfold delRetry
  rw [hkeq, List.length_range' 0 1 k]
  exact hk2

lemma retryGo_timedOut_len {α : Type} (f : ℕ → Except AwsError α)
    (r : AwsError → Bool) :
    ∀ fuel i e, (retryGo f r fuel i).2 = .timedOut e →
      (retryGo f r fuel i).1.length = fuel + 1 := by
  intro fuel
  induction fuel with
  | zero =>
    intro i e h
    cases hf : f i with
    | ok v => simp [retryGo, hf] at h
    | error e2 =>
      by_cases hr : r e2 = true
      · simp [retryGo, hf, hr]
      · simp [retryGo, hf, hr] at h
  | succ fuel ih =>
    intro i e h
    cases hf : f i with
    | ok v => simp [retryGo, hf] at h
    | error e2 =>
      by_cases hr : r e2 = true
      · simp only [retryGo, hf, if_pos hr] at h ⊢
        simp [List.length_cons, ih (i + 1) e h]
      · simp [retryGo, hf, hr] at h

lemma profileCall_kinds (c : ApiCall) (h : isProfileCall c = true) :
    isDeleteRoleCall c = false ∧ isDetachRolePolicyCall c = false ∧
    isDeleteRolePolicyCall c = false := by
  cases c <;> simp_all [isProfileCall, isDeleteRoleCall,
    isDetachRolePolicyCall, isDeleteRolePolicyCall]

lemma managedCall_kinds (c : ApiCall) (h : isManagedDetachCall c = true) :
    isDeleteRoleCall c = false := by
  cases c <;> simp_all [isManagedDetachCall, isDeleteRoleCall]

lemma inlineCall_kinds (c : ApiCall) (h : isInlineDeleteCall c = true) :
    isDeleteRoleCall c = false := by
  cases c <;> simp_all [isInlineDeleteCall, isDeleteRoleCall]

lemma deleteAwsIamRole_decomp (conn : Conn) (rolename : String) (force : Bool)
    (fuel : ℕ) :
    ∃ p1 p2 p3 p4,
      (deleteAwsIamRole conn rolename force fuel).1 =
        p1 ++ (p2 ++ (p3 ++ p4)) ∧
      (∀ c ∈ p1, isProfileCall c = true) ∧
      (∀ c ∈ p2, isManagedDetachCall c = true) ∧
      (∀ c ∈ p3, isInlineDeleteCall c = true) ∧
      (force = false → p2 = [] ∧ p3 = []) ∧
      (p4 = [] ∨ p4 = (deleteRolePhase conn rolename fuel).1) := by
  rcases hip : deleteAwsIamRoleInstanceProfiles conn rolename with ⟨tr1, r1⟩
  have hp1 : ∀ c ∈ tr1, isProfileCall c = true := fun c hc =>
    mem_instanceProfiles_trace conn rolename c (by rw [hip]; exact hc)
  cases r1 with
  | error e =>
    refine ⟨tr1, [], [], [], ?_, hp1, by simp, by simp,
      fun _ => ⟨rfl, rfl⟩, Or.inl rfl⟩
    simp [deleteAwsIamRole, hip]
  | ok v =>
    cases force with
    | false =>
      refine ⟨tr1, [], [], (deleteRolePhase conn rolename fuel).1, ?_, hp1,
        by simp, by simp, fun _ => ⟨rfl, rfl⟩, Or.inr rfl⟩
      simp [deleteAwsIamRole, hip]
    | true =>
      rcases hra : readAwsIamRolePolicyAttachments conn rolename with ⟨ta, ra⟩
      have hta : ∀ c ∈ ta, isManagedDetachCall c = true := by
        intro c hc
        have h := readAttachments_trace conn rolename
        rw [hra] at h
        simp only at h
        rw [h] at hc
        simp only [List.mem_singleton] at hc
        subst hc
        rfl
      cases ra with
      | error e =>
        refine ⟨tr1, ta, [], [], ?_, hp1, hta, by simp,
          (by simp), Or.inl rfl⟩
        simp [deleteAwsIamRole, hip, hra]
      | ok managed =>
        rcases hrb : deleteAwsIamRolePolicyAttachments conn rolename managed
          with ⟨tb, rb⟩
        have htb : ∀ c ∈ tb, isManagedDetachCall c = true := by
          intro c hc
          obtain ⟨a, _, hca⟩ := mem_deleteAttachments_trace conn rolename
            managed c (by rw [hrb]; exact hc)
          subst hca
          rfl
        have htab : ∀ c ∈ ta ++ tb, isManagedDetachCall c = true := by
          intro c hc
          rcases List.mem_append.mp hc with h | h
          exacts [hta c h, htb c h]
        cases rb with
        | error e =>
          refine ⟨tr1, ta ++ tb, [], [], ?_, hp1, htab, by simp,
            (by simp), Or.inl rfl⟩
          simp [deleteAwsIamRole, hip, hra, hrb, List.append_assoc]
        | ok v2 =>
          rcases hrc : readAwsIamRolePolicyNames conn rolename with ⟨tc, rc⟩
          have htc : ∀ c ∈ tc, isInlineDeleteCall c = true := by
            intro c hc
            have h := readPolicyNames_trace conn rolename
            rw [hrc] at h
            simp only at h
            rw [h] at hc
            simp only [List.mem_singleton] at hc
            subst hc
            rfl
          cases rc with
          | error e =>
            refine ⟨tr1, ta ++ tb, tc, [], ?_, hp1, htab, htc,
              (by simp), Or.inl rfl⟩
            simp [deleteAwsIamRole, hip, hra, hrb, hrc, List.append_assoc]
          | ok names =>
            rcases hrd : deleteAwsIamRolePolicies conn rolename names
              with ⟨td, rd⟩
            have htd : ∀ c ∈ td, isInlineDeleteCall c = true := by
              intro c hc
              obtain ⟨nm, _, hcn⟩ := mem_deletePolicies_trace conn rolename
                names c (by rw [hrd]; exact hc)
              subst hcn
              rfl
            have htcd : ∀ c ∈ tc ++ td, isInlineDeleteCall c = true := by
              intro c hc
              rcases List.mem_append.mp hc with h | h
              exacts [htc c h, htd c h]
            cases rd with
            | error e =>
              refine ⟨tr1, ta ++ tb, tc ++ td, [], ?_, hp1, htab, htcd,
                (by simp), Or.inl rfl⟩
              simp [deleteAwsIamRole, hip, hra, hrb, hrc, hrd,
                List.append_assoc]
            | ok v3 =>
              refine ⟨tr1, ta ++ tb, tc ++ td,
                (deleteRolePhase conn rolename fuel).1, ?_, hp1, htab, htcd,
                (by simp), Or.inr rfl⟩
              simp [deleteAwsIamRole, hip, hra, hrb, hrc, hrd,
                List.append_assoc]

lemma mem_delPhase_cases (conn : Conn) (rolename : String) (fuel : ℕ)
    (c : ApiCall) (hc : c ∈ (deleteRolePhase conn rolename fuel).1) :
    ∃ j, c = ApiCall.deleteRole rolename j ∧
      (j ∈ (delRetry conn rolename fuel).1 ∨
        (j = (delRetry conn rolename fuel).1.length ∧
          ∃ e, (delRetry conn rolename fuel).2 = .timedOut e)) := by
  rw [deleteRolePhase_trace] at hc
  rcases List.mem_append.mp hc with hc2 | hc2
  · simp only [List.mem_map] at hc2
    obtain ⟨j, hj, hcj⟩ := hc2
    exact ⟨j, hcj.symm, Or.inl hj⟩
  · cases hout : (delRetry conn rolename fuel).2 with
    | ok v => simp only [hout] at hc2; simp at hc2
    | nonRetryable e => simp only [hout] at hc2; simp at hc2
    | timedOut e =>
      simp only [hout, List.mem_singleton] at hc2
      exact ⟨(delRetry conn rolename fuel).1.length, hc2,
        Or.inr ⟨rfl, e, rfl⟩⟩

lemma profileCall_not_policy (c : ApiCall) (h : isProfileCall c = true) :
    isDetachRolePolicyCall c = false ∧ isDeleteRolePolicyCall c = false := by
  cases c <;> simp_all [isProfileCall, isDetachRolePolicyCall,
    isDeleteRolePolicyCall]

/-- A connection holding one instance profile that contains the role. -/
def connProfile : Conn :=
  { okConn with listInstanceProfilesForRole := fun _ => .ok ["prof"] }

/-- Counterexample to C1: a delete with `force_detach_policies = false`
still detaches the role from its instance profile, and does so before
`DeleteRole`. -/
theorem claim_C1_counterexample :
    (deleteAwsIamRole connProfile "r" false 0).1 =
      [ApiCall.listInstanceProfilesForRole "r",
       ApiCall.removeRoleFromInstanceProfile "prof" "r",
       ApiCall.deleteRole "r" 0] := by
  rfl

/-- Claim C1 (amended): only the managed-policy detach and inline-policy
delete steps are guarded by `force_detach_policies` — with the flag false,
no `DetachRolePolicy` and no `DeleteRolePolicy` call is ever issued (in
particular none before `DeleteRole`); instance profiles are detached
unconditionally, flag or no flag. -/
theorem claim_C1_amended (conn : Conn) (rolename : String) (fuel : ℕ) :
    ∀ c ∈ (deleteAwsIamRole conn rolename false fuel).1,
      isDetachRolePolicyCall c = false ∧ isDeleteRolePolicyCall c = false := by
  intro c hc
  obtain ⟨p1, p2, p3, p4, heq, h1, h2, h3, hforce, hdisj⟩ :=
    deleteAwsIamRole_decomp conn rolename false fuel
  obtain ⟨hp2, hp3⟩ := hforce rfl
  subst hp2 hp3
  rw [heq] at hc
  simp only [List.nil_append, List.mem_append] at hc
  rcases hc with hc | hc
  · exact profileCall_not_policy c (h1 c hc)
  · rcases hdisj with h | h
    · subst h; simp at hc
    · subst h
      obtain ⟨j, hcj, _⟩ := mem_delPhase_cases conn rolename fuel c hc
      subst hcj
      exact ⟨rfl, rfl⟩

/-- Witness for the amended C1: on the concrete no-force delete above, the
instance-profile detach call is issued, yet it is neither a policy detach
nor an inline-policy delete. -/
theorem claim_C1_amended_witness :
    isDetachRolePolicyCall
        (ApiCall.removeRoleFromInstanceProfile "prof" "r") = false ∧
    isDeleteRolePolicyCall
        (ApiCall.removeRoleFromInstanceProfile "prof" "r") = false :=
  claim_C1_amended connProfile "r" 0
    (ApiCall.removeRoleFromInstanceProfile "prof" "r") (by decide)

/-- Claim C5: the cascade delete's trace decomposes, in order, into
instance-profile detach calls, then managed-policy detach calls, then
inline-policy delete calls, then `DeleteRole` calls — so `DeleteRole` is
never issued before any detach step the call performs; the number of
`DeleteRole` attempts is bounded by the retry window (`fuel` retries, plus
the first attempt and one post-timeout attempt), a repeat attempt `j + 1` is
issued only when attempt `j` failed with a `DeleteConflict` error, and an
attempt that fails with `DeleteConflict` within the window is in fact
retried. -/
theorem claim_C5 (conn : Conn) (rolename : String) (force : Bool) (fuel : ℕ) :
    ∃ p1 p2 p3 p4,
      (deleteAwsIamRole conn rolename force fuel).1 =
        p1 ++ (p2 ++ (p3 ++ p4)) ∧
      (∀ c ∈ p1, isProfileCall c = true) ∧
      (∀ c ∈ p2, isManagedDetachCall c = true) ∧
      (∀ c ∈ p3, isInlineDeleteCall c = true) ∧
      (∀ c ∈ p4, isDeleteRoleCall c = true) ∧
      (deleteAwsIamRole conn rolename force fuel).1.countP isDeleteRoleCall ≤
        fuel + 2 ∧
      (∀ j, ApiCall.deleteRole rolename (j + 1) ∈
          (deleteAwsIamRole conn rolename force fuel).1 →
        ∃ e, conn.deleteRole rolename j = .error e ∧
          e.code = errCodeDeleteConflict) ∧
      (∀ j e, ApiCall.deleteRole rolename j ∈
          (deleteAwsIamRole conn rolename force fuel).1 →
        conn.deleteRole rolename j = .error e →
        e.code = errCodeDeleteConflict → j + 1 ≤ fuel + 1 →
        ApiCall.deleteRole rolename (j + 1) ∈
          (deleteAwsIamRole conn rolename force fuel).1) := by
  obtain ⟨p1, p2, p3, p4, heq, h1, h2, h3, _, hdisj⟩ :=
    deleteAwsIamRole_decomp conn rolename force fuel
  have h4 : ∀ c ∈ p4, isDeleteRoleCall c = true := by
    intro c hc
    rcases hdisj with h | h
    · subst h; simp at hc
    · subst h
      obtain ⟨j, hcj, _⟩ := mem_delPhase_cases conn rolename fuel c hc
      subst hcj
      rfl
  have hmemdel : ∀ j, ApiCall.deleteRole rolename j ∈
      (deleteAwsIamRole conn rolename force fuel).1 →
      p4 = (deleteRolePhase conn rolename fuel).1 ∧
      (j ∈ (delRetry conn rolename fuel).1 ∨
        (j = (delRetry conn rolename fuel).1.length ∧
          ∃ e, (delRetry conn rolename fuel).2 = .timedOut e)) := by
    intro j hj
    rw [heq] at hj
    rcases List.mem_append.mp hj with hj2 | hj2
    · have := h1 _ hj2; simp [isProfileCall] at this
    rcases List.mem_append.mp hj2 with hj3 | hj3
    · have := h2 _ hj3; simp [isManagedDetachCall] at this
    rcases List.mem_append.mp hj3 with hj4 | hj4
    · have := h3 _ hj4; simp [isInlineDeleteCall] at this
    rcases hdisj with h | h
    · subst h; simp at hj4
    · subst h
      obtain ⟨j2, hcj, hcase⟩ := mem_delPhase_cases conn rolename fuel _ hj4
      have : j = j2 := by injection hcj
      subst this
      exact ⟨rfl, hcase⟩
  have hdelmem_trace : ∀ j, p4 = (deleteRolePhase conn rolename fuel).1 →
      ApiCall.deleteRole rolename j ∈ (deleteRolePhase conn rolename fuel).1 →
      ApiCall.deleteRole rolename j ∈
        (deleteAwsIamRole conn rolename force fuel).1 := by
    intro j hp4 hin
    rw [heq]
    refine List.mem_append.mpr (Or.inr ?_)
    refine List.mem_append.mpr (Or.inr ?_)
    refine List.mem_append.mpr (Or.inr ?_)
    rw [hp4]
    exact hin
  refine ⟨p1, p2, p3, p4, heq, h1, h2, h3, h4, ?_, ?_, ?_⟩
  · rw [heq, List.countP_append, List.countP_append, List.countP_append]
    have z1 : p1.countP isDeleteRoleCall = 0 :=
      List.countP_eq_zero.mpr fun c hc => by
        simp [(profileCall_kinds c (h1 c hc)).1]
    have z2 : p2.countP isDeleteRoleCall = 0 :=
      List.countP_eq_zero.mpr fun c hc => by
        simp [managedCall_kinds c (h2 c hc)]
    have z3 : p3.countP isDeleteRoleCall = 0 :=
      List.countP_eq_zero.mpr fun c hc => by
        simp [inlineCall_kinds c (h3 c hc)]
    have z4 : p4.countP isDeleteRoleCall ≤ fuel + 2 := by
      refine le_trans (List.countP_le_length isDeleteRoleCall) ?_
      rcases hdisj with h | h
      · subst h; simp
      · subst h
        rw [deleteRolePhase_trace, List.length_append, List.length_map]
        have hlen := delRetry_len conn rolename fuel
        have htail : (match (delRetry conn rolename fuel).2 with
            | RetryOutcome.timedOut e =>
              [ApiCall.deleteRole rolename (delRetry conn rolename fuel).1.length]
            | _ => []).length ≤ 1 := by
          cases (delRetry conn rolename fuel).2 <;> simp
        omega
    omega
  · intro j hj
    obtain ⟨hp4, hcase⟩ := hmemdel (j + 1) hj
    rcases hcase with hin | ⟨hlen, e, hout⟩
    · obtain ⟨e, he1, he2⟩ := retryGo_mem_succ
        (fun i => conn.deleteRole rolename i)
        (fun e => e.code == errCodeDeleteConflict) fuel 0 j (Nat.zero_le j) hin
      exact ⟨e, he1, by simpa using he2⟩
    · obtain ⟨j2, hj2, he1, he2⟩ := retryGo_timedOut_last
        (fun i => conn.deleteRole rolename i)
        (fun e => e.code == errCodeDeleteConflict) fuel 0 e hout
      have hj2b : (delRetry conn rolename fuel).1.length + 0 = j2 + 1 := hj2
      have : j2 = j := by omega
      subst this
      exact ⟨e, he1, by simpa using he2⟩
  · intro j e hj herr hcode hle
    obtain ⟨hp4, hcase⟩ := hmemdel j hj
    rcases hcase with hin | ⟨hlen, e0, hout⟩
    · have hre : (fun e2 => e2.code == errCodeDeleteConflict) e = true := by
        simp [hcode]
      rcases retryGo_next (fun i => conn.deleteRole rolename i)
          (fun e2 => e2.code == errCodeDeleteConflict) fuel 0 j e hin herr hre
        with hnext | ⟨hout2, hlen2⟩
      · refine hdelmem_trace (j + 1) hp4 ?_
        rw [deleteRolePhase_trace]
        refine List.mem_append.mpr (Or.inl ?_)
        exact List.mem_map.mpr ⟨j + 1, hnext, rfl⟩
      · refine hdelmem_trace (j + 1) hp4 ?_
        rw [deleteRolePhase_trace]
        refine List.mem_append.mpr (Or.inr ?_)
        have hout2b : (delRetry conn rolename fuel).2 =
          RetryOutcome.timedOut e := hout2
        have hlen2b : (delRetry conn rolename fuel).1.length + 0 = j + 1 :=
          hlen2
        rw [hout2b]
        have hlen3 : (delRetry conn rolename fuel).1.length = j + 1 := by
          omega
        rw [hlen3]
        simp
    · have hflen := retryGo_timedOut_len
        (fun i => conn.deleteRole rolename i)
        (fun e2 => e2.code == errCodeDeleteConflict) fuel 0 e0 hout
      have hflenb : (delRetry conn rolename fuel).1.length = fuel + 1 := hflen
      omega

/-- A `DeleteConflict` error. -/
def dcErr : AwsError := { code := "DeleteConflict", message := "conflict" }

/-- A connection whose `DeleteRole` fails with `DeleteConflict` on the first
attempt and succeeds on the second. -/
def connRetry : Conn :=
  { okConn with
    deleteRole := fun _ i => if i = 0 then .error dcErr else .ok () }

/-- Witness for C5: on the connection above, attempt 1 appears in the trace,
and the theorem recovers that attempt 0 failed with `DeleteConflict`. -/
theorem claim_C5_witness :
    ∃ e, connRetry.deleteRole "r" 0 = .error e ∧
      e.code = errCodeDeleteConflict := by
  obtain ⟨p1, p2, p3, p4, heq, h1, h2, h3, h4, h5, h6, h7⟩ :=
    claim_C5 connRetry "r" false 1
  exact h6 0 (by decide)

lemma retryGo_ok_mem {α : Type} (f : ℕ → Except AwsError α)
    (r : AwsError → Bool) :
    ∀ fuel i v, (retryGo f r fuel i).2 = .ok v →
      ∃ j, j ∈ (retryGo f r fuel i).1 ∧ f j = .ok v := by
  intro fuel
  induction fuel with
  | zero =>
    intro i v h
    cases hf : f i with
    | ok w =>
      simp only [retryGo, hf] at h ⊢
      cases h
      exact ⟨i, by simp, hf⟩
    | error e =>
      by_cases hr : r e = true
      · simp [retryGo, hf, hr] at h
      · simp [retryGo, hf, hr] at h
  | succ fuel ih =>
    intro i v h
    cases hf : f i with
    | ok w =>
      simp only [retryGo, hf] at h ⊢
      cases h
      exact ⟨i, by simp, hf⟩
    | error e =>
      by_cases hr : r e = true
      · simp only [retryGo, hf, if_pos hr] at h ⊢
        obtain ⟨j, hj1, hj2⟩ := ih (i + 1) v h
        exact ⟨j, by simp [hj1], hj2⟩
      · simp [retryGo, hf, hr] at h

lemma retryGo_nonretry_outcome {α : Type} (f : ℕ → Except AwsError α)
    (r : AwsError → Bool) :
    ∀ fuel i j e, j ∈ (retryGo f r fuel i).1 → f j = .error e →
      r e = false → (retryGo f r fuel i).2 = .nonRetryable e := by
  intro fuel
  induction fuel with
  | zero =>
    intro i j e hmem herr hr
    cases hf : f i with
    | ok w =>
      simp only [retryGo, hf, List.mem_singleton] at hmem
      subst hmem
      rw [hf] at herr
      cases herr
    | error e2 =>
      by_cases hr2 : r e2 = true
      · simp only [retryGo, hf, if_pos hr2, List.mem_singleton] at hmem
        subst hmem
        rw [hf] at herr
        cases herr
        rw [hr] at hr2
        cases hr2
      · simp only [retryGo, hf, if_neg hr2, List.mem_singleton] at hmem ⊢
        subst hmem
        rw [hf] at herr
        cases herr
        rfl
  | succ fuel ih =>
    intro i j e hmem herr hr
    cases hf : f i with
    | ok w =>
      simp only [retryGo, hf, List.mem_singleton] at hmem
      subst hmem
      rw [hf] at herr
      cases herr
    | error e2 =>
      by_cases hr2 : r e2 = true
      · simp only [retryGo, hf, if_pos hr2, List.mem_cons] at hmem ⊢
        rcases hmem with hmem | hmem
        · subst hmem
          rw [hf] at herr
          cases herr
          rw [hr] at hr2
          cases hr2
        · exact ih (i + 1) j e hmem herr hr
      · simp only [retryGo, hf, if_neg hr2, List.mem_singleton] at hmem ⊢
        subst hmem
        rw [hf] at herr
        cases herr
        rfl

lemma createRolePhase_trace (conn : Conn) (request : CreateRoleInput)
    (fuel : ℕ) :
    (createRolePhase conn request fuel).1 =
      ((createRetry conn request fuel).1.map (ApiCall.createRole request)) ++
      (match (createRetry conn request fuel).2 with
        | .timedOut _ =>
          [ApiCall.createRole request (createRetry conn request fuel).1.length]
        | _ => []) := by
  rcases hA : createRetry conn request fuel with ⟨attempts, outcome⟩
  cases outcome with
  | ok v => simp [createRolePhase, hA]
  | nonRetryable e => simp [createRolePhase, hA]
  | timedOut e =>
    cases hdir : conn.createRole request attempts.length with
    | ok v => simp [createRolePhase, hA, hdir]
    | error e2 => simp [createRolePhase, hA, hdir]

lemma mem_createPhase_cases (conn : Conn) (request : CreateRoleInput)
    (fuel : ℕ) (c : ApiCall)
    (hc : c ∈ (createRolePhase conn request fuel).1) :
    ∃ j, c = ApiCall.createRole request j ∧
      (j ∈ (createRetry conn request fuel).1 ∨
        (j = (createRetry conn request fuel).1.length ∧
          ∃ e, (createRetry conn request fuel).2 = .timedOut e)) := by
  rw [createRolePhase_trace] at hc
  rcases List.mem_append.mp hc with hc2 | hc2
  · simp only [List.mem_map] at hc2
    obtain ⟨j, hj, hcj⟩ := hc2
    exact ⟨j, hcj.symm, Or.inl hj⟩
  · cases hout : (createRetry conn request fuel).2 with
    | ok v => simp only [hout] at hc2; simp at hc2
    | nonRetryable e => simp only [hout] at hc2; simp at hc2
    | timedOut e =>
      simp only [hout, List.mem_singleton] at hc2
      exact ⟨(createRetry conn request fuel).1.length, hc2,
        Or.inr ⟨rfl, e, rfl⟩⟩

lemma createRetry_len (conn : Conn) (request : CreateRoleInput) (fuel : ℕ) :
    (createRetry conn request fuel).1.length ≤ fuel + 1 := by
  obtain ⟨k, _, hk2, hkeq⟩ := retryGo_trace_range (conn.createRole request)
    createRoleRetryableErr fuel 0
  unfold createRetry
  rw [hkeq, List.length_range' 0 1 k]
  exact hk2

lemma createPhase_ok_mem (conn : Conn) (request : CreateRoleInput) (fuel : ℕ)
    (rn : String) (h : (createRolePhase conn request fuel).2 = .ok rn) :
    ∃ j, conn.createRole request j = .ok rn ∧
      ApiCall.createRole request j ∈ (createRolePhase conn request fuel).1 := by
  rcases hA : createRetry conn request fuel with ⟨attempts, outcome⟩
  cases outcome with
  | ok v =>
    simp only [createRolePhase, hA] at h
    cases h
    obtain ⟨j, hj1, hj2⟩ := retryGo_ok_mem (conn.createRole request)
      createRoleRetryableErr fuel 0 rn
      (show (createRetry conn request fuel).2 = RetryOutcome.ok rn by
        rw [hA])
    refine ⟨j, hj2, ?_⟩
    rw [createRolePhase_trace, hA]
    have hj1b : j ∈ attempts := by
      have : (createRetry conn request fuel).1 = attempts := by rw [hA]
      rw [← this]
      exact hj1
    exact List.mem_append.mpr (Or.inl (List.mem_map.mpr ⟨j, hj1b, rfl⟩))
  | nonRetryable e =>
    simp only [createRolePhase, hA] at h
    cases h
  | timedOut e =>
    cases hdir : conn.createRole request attempts.length with
    | ok v =>
      simp only [createRolePhase, hA, hdir] at h
      cases h
      refine ⟨attempts.length, hdir, ?_⟩
      rw [createRolePhase_trace, hA]
      simp
    | error e2 =>
      simp only [createRolePhase, hA, hdir] at h
      cases h

lemma createPhase_err_result (conn : Conn) (request : CreateRoleInput)
    (fuel : ℕ) (j : ℕ) (e : AwsError)
    (hin : ApiCall.createRole request j ∈ (createRolePhase conn request fuel).1)
    (herr : conn.createRole request j = .error e)
    (hnr : createRoleRetryableErr e = false) :
    (createRolePhase conn request fuel).2 = .error e := by
  obtain ⟨j2, hcj, hcase⟩ := mem_createPhase_cases conn request fuel _ hin
  have hj : j = j2 := by injection hcj
  subst hj
  rcases hcase with hmem | ⟨hlen, e0, hout⟩
  · have hout := retryGo_nonretry_outcome (conn.createRole request)
      createRoleRetryableErr fuel 0 j e hmem herr hnr
    rcases hA : createRetry conn request fuel with ⟨attempts, outcome⟩
    have houtb : (createRetry conn request fuel).2 =
      RetryOutcome.nonRetryable e := hout
    rw [hA] at houtb
    simp only at houtb
    subst houtb
    simp [createRolePhase, hA]
  · rcases hA : createRetry conn request fuel with ⟨attempts, outcome⟩
    have houtb := hout
    rw [hA] at houtb
    simp only at houtb
    subst houtb
    have hlenb : j = attempts.length := by
      rw [hA] at hlen
      exact hlen
    subst hlenb
    simp [createRolePhase, hA, herr]

lemma createInlineStep_put (conn : Conn) (cfg : CreateConfig) (rn : String) :
    ∀ c ∈ (createInlineStep conn cfg rn).1, isPutRolePolicyCall c = true := by
  intro c hc
  unfold createInlineStep at hc
  by_cases hne : cfg.inlinePolicy ≠ []
  · rw [if_pos hne] at hc
    rw [(createInlinePolicies_spec conn
      (expandIamInlinePolicies rn cfg.inlinePolicy)).1] at hc
    simp only [List.mem_map] at hc
    obtain ⟨p, _, hcp⟩ := hc
    subst hcp
    rfl
  · rw [if_neg hne] at hc
    simp at hc

lemma createManagedStep_attach (conn : Conn) (cfg : CreateConfig)
    (rn : String) :
    ∀ c ∈ (createManagedStep conn cfg rn).1,
      isAttachRolePolicyCall c = true := by
  intro c hc
  unfold createManagedStep at hc
  by_cases hne : cfg.managedPolicyArns ≠ []
  · rw [if_pos hne] at hc
    rw [(attachManagedPolicies_spec conn rn cfg.managedPolicyArns).1] at hc
    simp only [List.mem_map] at hc
    obtain ⟨p, _, hcp⟩ := hc
    subst hcp
    rfl
  · rw [if_neg hne] at hc
    simp at hc

lemma putAttach_not_create (c : ApiCall)
    (h : isPutRolePolicyCall c = true ∨ isAttachRolePolicyCall c = true) :
    isCreateRoleCall c = false := by
  cases c <;> simp_all [isPutRolePolicyCall, isAttachRolePolicyCall,
    isCreateRoleCall]

lemma create_decomp (conn : Conn) (cfg : CreateConfig) (uniq : String)
    (fuel : ℕ) :
    ∃ rest,
      (resourceAwsIamRoleCreate conn cfg uniq fuel).1 =
        (createRolePhase conn (buildCreateRoleInput cfg (chooseRoleName cfg uniq))
          fuel).1 ++ rest ∧
      (∀ c ∈ rest,
        isPutRolePolicyCall c = true ∨ isAttachRolePolicyCall c = true) ∧
      (rest ≠ [] → ∃ rn,
        (createRolePhase conn
          (buildCreateRoleInput cfg (chooseRoleName cfg uniq)) fuel).2 =
            .ok rn) ∧
      (∀ e, (resourceAwsIamRoleCreate conn cfg uniq fuel).2 = .createErr e →
        (createRolePhase conn
          (buildCreateRoleInput cfg (chooseRoleName cfg uniq)) fuel).2 =
            .error e ∧ rest = []) ∧
      (∀ e, (createRolePhase conn
          (buildCreateRoleInput cfg (chooseRoleName cfg uniq)) fuel).2 =
            .error e →
        (resourceAwsIamRoleCreate conn cfg uniq fuel).2 = .createErr e) := by
  rcases hph : createRolePhase conn
    (buildCreateRoleInput cfg (chooseRoleName cfg uniq)) fuel with ⟨tr0, r0⟩
  cases r0 with
  | error e =>
    refine ⟨[], ?_, by simp, by simp, ?_, ?_⟩
    · simp [resourceAwsIamRoleCreate, hph]
    · intro e2 h2
      simp only [resourceAwsIamRoleCreate, hph] at h2
      cases h2
      exact ⟨rfl, rfl⟩
    · intro e2 h2
      simp only at h2
      cases h2
      simp [resourceAwsIamRoleCreate, hph]
  | ok rn =>
    rcases hti : createInlineStep conn cfg rn with ⟨ti, ei⟩
    have hput : ∀ c ∈ ti, isPutRolePolicyCall c = true := by
      intro c hc
      exact createInlineStep_put conn cfg rn c (by rw [hti]; exact hc)
    cases ei with
    | cons e es =>
      refine ⟨ti, ?_, fun c hc => Or.inl (hput c hc),
        fun _ => ⟨rn, by simp⟩, ?_, ?_⟩
      · simp [resourceAwsIamRoleCreate, hph, hti]
      · intro e2 h2
        simp only [resourceAwsIamRoleCreate, hph, hti] at h2
        cases h2
      · intro e2 h2
        simp only at h2
        cases h2
    | nil =>
      rcases htm : createManagedStep conn cfg rn with ⟨tm, em⟩
      have hatt : ∀ c ∈ tm, isAttachRolePolicyCall c = true := by
        intro c hc
        exact createManagedStep_attach conn cfg rn c (by rw [htm]; exact hc)
      have hrest : ∀ c ∈ ti ++ tm,
          isPutRolePolicyCall c = true ∨ isAttachRolePolicyCall c = true := by
        intro c hc
        rcases List.mem_append.mp hc with h | h
        exacts [Or.inl (hput c h), Or.inr (hatt c h)]
      cases em with
      | cons e es =>
        refine ⟨ti ++ tm, ?_, hrest, fun _ => ⟨rn, by simp⟩, ?_, ?_⟩
        · simp [resourceAwsIamRoleCreate, hph, hti, htm, List.append_assoc]
        · intro e2 h2
          simp only [resourceAwsIamRoleCreate, hph, hti, htm] at h2
          cases h2
        · intro e2 h2
          simp only at h2
          cases h2
      | nil =>
        refine ⟨ti ++ tm, ?_, hrest, fun _ => ⟨rn, by simp⟩, ?_, ?_⟩
        · simp [resourceAwsIamRoleCreate, hph, hti, htm, List.append_assoc]
        · intro e2 h2
          simp only [resourceAwsIamRoleCreate, hph, hti, htm] at h2
          cases h2
        · intro e2 h2
          simp only at h2
          cases h2

/-- Claim C6: `CreateRole` is retried (within the 30-second window, i.e. at
most `fuel` retries plus the initial attempt and one post-timeout attempt)
exactly while it fails with the "Invalid principal in policy"
`MalformedPolicyDocument` error — a repeat attempt implies the previous one
failed that way, and an attempt that fails that way within the window is in
fact followed by another attempt; an attempt that fails with any other
error makes that error the handler's result at once; and inline-policy or
managed-policy calls appear only after the `CreateRole` calls, and only when
some `CreateRole` attempt succeeded. -/
theorem claim_C6 (conn : Conn) (cfg : CreateConfig) (uniq : String)
    (fuel : ℕ) :
    createRoleRetryWindowSeconds = 30 ∧
    (∀ j, ApiCall.createRole (buildCreateRoleInput cfg (chooseRoleName cfg uniq))
        (j + 1) ∈ (resourceAwsIamRoleCreate conn cfg uniq fuel).1 →
      ∃ e, conn.createRole (buildCreateRoleInput cfg (chooseRoleName cfg uniq))
          j = .error e ∧ createRoleRetryableErr e = true) ∧
    (∀ j e, ApiCall.createRole
        (buildCreateRoleInput cfg (chooseRoleName cfg uniq)) j ∈
          (resourceAwsIamRoleCreate conn cfg uniq fuel).1 →
      conn.createRole (buildCreateRoleInput cfg (chooseRoleName cfg uniq)) j =
        .error e →
      createRoleRetryableErr e = false →
      (resourceAwsIamRoleCreate conn cfg uniq fuel).2 = .createErr e) ∧
    (∀ e, (resourceAwsIamRoleCreate conn cfg uniq fuel).2 = .createErr e →
      ∀ c ∈ (resourceAwsIamRoleCreate conn cfg uniq fuel).1,
        isCreateRoleCall c = true) ∧
    (∃ cr rest, (resourceAwsIamRoleCreate conn cfg uniq fuel).1 = cr ++ rest ∧
      (∀ c ∈ cr, isCreateRoleCall c = true) ∧
      (∀ c ∈ rest,
        isPutRolePolicyCall c = true ∨ isAttachRolePolicyCall c = true) ∧
      (rest ≠ [] → ∃ j rn,
        conn.createRole (buildCreateRoleInput cfg (chooseRoleName cfg uniq)) j =
          .ok rn ∧
        ApiCall.createRole (buildCreateRoleInput cfg (chooseRoleName cfg uniq))
          j ∈ cr)) ∧
    (resourceAwsIamRoleCreate conn cfg uniq fuel).1.countP isCreateRoleCall ≤
      fuel + 2 ∧
    (∀ j e, ApiCall.createRole
        (buildCreateRoleInput cfg (chooseRoleName cfg uniq)) j ∈
          (resourceAwsIamRoleCreate conn cfg uniq fuel).1 →
      conn.createRole (buildCreateRoleInput cfg (chooseRoleName cfg uniq)) j =
        .error e →
      createRoleRetryableErr e = true → j + 1 ≤ fuel + 1 →
      ApiCall.createRole (buildCreateRoleInput cfg (chooseRoleName cfg uniq))
        (j + 1) ∈ (resourceAwsIamRoleCreate conn cfg uniq fuel).1) := by
  obtain ⟨rest, heq, hrest, hok, herrres, hphres⟩ :=
    create_decomp conn cfg uniq fuel
  have hcr : ∀ c ∈ (createRolePhase conn
      (buildCreateRoleInput cfg (chooseRoleName cfg uniq)) fuel).1,
      isCreateRoleCall c = true := by
    intro c hc
    obtain ⟨j, hcj, _⟩ := mem_createPhase_cases conn _ fuel c hc
    subst hcj
    rfl
  have hmemphase : ∀ j, ApiCall.createRole
      (buildCreateRoleInput cfg (chooseRoleName cfg uniq)) j ∈
        (resourceAwsIamRoleCreate conn cfg uniq fuel).1 →
      ApiCall.createRole (buildCreateRoleInput cfg (chooseRoleName cfg uniq))
        j ∈ (createRolePhase conn
          (buildCreateRoleInput cfg (chooseRoleName cfg uniq)) fuel).1 := by
    intro j hj
    rw [heq] at hj
    rcases List.mem_append.mp hj with hj2 | hj2
    · exact hj2
    · have := hrest _ hj2
      have h2 := putAttach_not_create _ this
      simp [isCreateRoleCall] at h2
  refine ⟨rfl, ?_, ?_, ?_, ?_, ?_, ?_⟩
  · intro j hj
    have hin := hmemphase (j + 1) hj
    obtain ⟨j2, hcj, hcase⟩ := mem_createPhase_cases conn _ fuel _ hin
    have hjj : j + 1 = j2 := by injection hcj
    subst hjj
    rcases hcase with hmem | ⟨hlen, e0, hout⟩
    · exact retryGo_mem_succ
        (conn.createRole (buildCreateRoleInput cfg (chooseRoleName cfg uniq)))
        createRoleRetryableErr fuel 0 j (Nat.zero_le j) hmem
    · obtain ⟨j2, hj2, he1, he2⟩ := retryGo_timedOut_last
        (conn.createRole (buildCreateRoleInput cfg (chooseRoleName cfg uniq)))
        createRoleRetryableErr fuel 0 e0 hout
      have hj2b : (createRetry conn
          (buildCreateRoleInput cfg (chooseRoleName cfg uniq)) fuel).1.length +
          0 = j2 + 1 := hj2
      have : j2 = j := by omega
      subst this
      exact ⟨e0, he1, he2⟩
  · intro j e hj herr hnr
    have hin := hmemphase j hj
    have hres := createPhase_err_result conn _ fuel j e hin herr hnr
    exact hphres e hres
  · intro e hres c hc
    obtain ⟨hperr, hrnil⟩ := herrres e hres
    rw [heq] at hc
    rcases List.mem_append.mp hc with hc2 | hc2
    · exact hcr c hc2
    · rw [hrnil] at hc2
      simp at hc2
  · refine ⟨(createRolePhase conn
      (buildCreateRoleInput cfg (chooseRoleName cfg uniq)) fuel).1, rest,
      heq, hcr, hrest, ?_⟩
    intro hne
    obtain ⟨rn, hrn⟩ := hok hne
    obtain ⟨j, hj1, hj2⟩ := createPhase_ok_mem conn _ fuel rn hrn
    exact ⟨j, rn, hj1, hj2⟩
  · rw [heq, List.countP_append]
    have z2 : rest.countP isCreateRoleCall = 0 :=
      List.countP_eq_zero.mpr fun c hc => by
        simp [putAttach_not_create c (hrest c hc)]
    have z1 : (createRolePhase conn
        (buildCreateRoleInput cfg (chooseRoleName cfg uniq)) fuel).1.countP
          isCreateRoleCall ≤ fuel + 2 := by
      refine le_trans (List.countP_le_length isCreateRoleCall) ?_
      rw [createRolePhase_trace, List.length_append, List.length_map]
      have hlen := createRetry_len conn
        (buildCreateRoleInput cfg (chooseRoleName cfg uniq)) fuel
      have htail : (match (createRetry conn
          (buildCreateRoleInput cfg (chooseRoleName cfg uniq)) fuel).2 with
          | RetryOutcome.timedOut e =>
            [ApiCall.createRole
              (buildCreateRoleInput cfg (chooseRoleName cfg uniq))
              (createRetry conn
                (buildCreateRoleInput cfg (chooseRoleName cfg uniq))
                fuel).1.length]
          | _ => []).length ≤ 1 := by
        cases (createRetry conn
          (buildCreateRoleInput cfg (chooseRoleName cfg uniq)) fuel).2 <;> simp
      omega
    omega
  · intro j e hj herr hre hle
    have hin := hmemphase j hj
    obtain ⟨j2, hcj, hcase⟩ := mem_createPhase_cases conn _ fuel _ hin
    have hjj : j = j2 := by injection hcj
    subst hjj
    rcases hcase with hmem | ⟨hlen, e0, hout⟩
    · rcases retryGo_next
          (conn.createRole (buildCreateRoleInput cfg (chooseRoleName cfg uniq)))
          createRoleRetryableErr fuel 0 j e hmem herr hre
        with hnext | ⟨hout2, hlen2⟩
      · rw [heq]
        refine List.mem_append.mpr (Or.inl ?_)
        rw [createRolePhase_trace]
        exact List.mem_append.mpr
          (Or.inl (List.mem_map.mpr ⟨j + 1, hnext, rfl⟩))
      · rw [heq]
        refine List.mem_append.mpr (Or.inl ?_)
        rw [createRolePhase_trace]
        refine List.mem_append.mpr (Or.inr ?_)
        have hout2b : (createRetry conn
            (buildCreateRoleInput cfg (chooseRoleName cfg uniq)) fuel).2 =
          RetryOutcome.timedOut e := hout2
        have hlen2b : (createRetry conn
            (buildCreateRoleInput cfg (chooseRoleName cfg uniq))
            fuel).1.length + 0 = j + 1 := hlen2
        rw [hout2b]
        have hlen3 : (createRetry conn
            (buildCreateRoleInput cfg (chooseRoleName cfg uniq))
            fuel).1.length = j + 1 := by omega
        rw [hlen3]
        simp
    · have hflen := retryGo_timedOut_len
        (conn.createRole (buildCreateRoleInput cfg (chooseRoleName cfg uniq)))
        createRoleRetryableErr fuel 0 e0 hout
      have hflenb : (createRetry conn
          (buildCreateRoleInput cfg (chooseRoleName cfg uniq))
          fuel).1.length = fuel + 1 := hflen
      omega

/-- The transient principal-propagation error. -/
def mpdErr : AwsError :=
  { code := "MalformedPolicyDocument", message := "Invalid principal in policy" }

/-- A minimal Create configuration. -/
def cfgC6 : CreateConfig :=
  { name := some "r", namePfx := none, path := "/", assumeRolePolicy := "p",
    description := none, maxSessionDuration := none,
    permissionsBoundary := none, tags := [], inlinePolicy := [],
    managedPolicyArns := [] }

/-- A connection whose `CreateRole` fails with the transient principal error
on the first attempt and succeeds on the second. -/
def connCreateRetry : Conn :=
  { okConn with
    createRole := fun _ i => if i = 0 then .error mpdErr else .ok "r" }

/-- Witness for C6: on the concrete connection, attempt 0 is in the trace
and fails with the retryable principal error within the window, and the
theorem yields that attempt 1 is issued — the failing `CreateRole` really is
retried. -/
theorem claim_C6_witness :
    ApiCall.createRole (buildCreateRoleInput cfgC6 (chooseRoleName cfgC6 "u"))
        (0 + 1) ∈ (resourceAwsIamRoleCreate connCreateRetry cfgC6 "u" 1).1 :=
  (claim_C6 connCreateRetry cfgC6 "u" 1).2.2.2.2.2.2 0 mpdErr (by decide) rfl
    (by decide) (by decide)

lemma hasSub_nil : ∀ l : List Char, hasSub [] l = true := by
  intro l
  cases l <;> simp [hasSub, leadsWith]

lemma isAWSErr_nse (e : AwsError) (h : e.code = errCodeNoSuchEntity) :
    isAWSErr (some e) errCodeNoSuchEntity "" = true := by
  simp [isAWSErr, h, strContains, hasSub_nil]

/-- Old state for the C7 counterexample. -/
def oC7 : RoleState :=
  { name := "r", assumeRolePolicy := "p", description := "",
    maxSessionDuration := 3600, permissionsBoundary := "", tags := [],
    inlinePolicy := [], managedPolicyArns := [] }

/-- New state for the C7 counterexample: only the permissions boundary
changed. -/
def nC7 : RoleState :=
  { name := "r", assumeRolePolicy := "p", description := "",
    maxSessionDuration := 3600, permissionsBoundary := "pb", tags := [],
    inlinePolicy := [], managedPolicyArns := [] }

/-- A connection whose `PutRolePermissionsBoundary` answers
`NoSuchEntity`. -/
def connPB : Conn :=
  { okConn with putRolePermissionsBoundary := fun _ _ => .error nseErr }

/-- Counterexample to C7: an Update that only changes the permissions
boundary surfaces a `NoSuchEntity` error to the caller instead of clearing
the state and returning success. -/
theorem claim_C7_counterexample :
    (resourceAwsIamRoleUpdate connPB "r" oC7 nC7).2 = UpdResult.err nseErr ∧
    nseErr.code = errCodeNoSuchEntity := by
  exact ⟨rfl, rfl⟩

/-- Claim C7 (amended): a `NoSuchEntity` error is treated as "resource
gone" — clearing the state and returning success — by Read, by Delete, and
by Update's assume-role-policy, description, and max-session-duration
blocks; Update's permissions-boundary block (like its tags and policy
blocks) instead surfaces the error, `NoSuchEntity` included. -/
theorem claim_C7_amended (conn : Conn) (id0 : String) (o n : RoleState)
    (unescape : String → String) (force : Bool) (fuel : ℕ)
    (e1 e2 e3 e4 e5 e6 : AwsError) :
    (conn.getRole id0 = .error e1 → e1.code = errCodeNoSuchEntity →
      (resourceAwsIamRoleRead conn id0 unescape).2 = .removed) ∧
    ((deleteAwsIamRole conn id0 force fuel).2 = .error e2 →
      e2.code = errCodeNoSuchEntity →
      (resourceAwsIamRoleDelete conn id0 force fuel).2 = .ok ()) ∧
    (hasChange o n .assumeRolePolicy = true →
      conn.updateAssumeRolePolicy id0 n.assumeRolePolicy = .error e3 →
      e3.code = errCodeNoSuchEntity →
      (updAssumeRolePolicyStep conn id0 o n).2 = .cleared) ∧
    (hasChange o n .description = true →
      conn.updateRoleDescription id0 n.description = .error e4 →
      e4.code = errCodeNoSuchEntity →
      (updDescriptionStep conn id0 o n).2 = .cleared) ∧
    (hasChange o n .maxSessionDuration = true →
      conn.updateRole id0 n.maxSessionDuration = .error e5 →
      e5.code = errCodeNoSuchEntity →
      (updMaxSessionStep conn id0 o n).2 = .cleared) ∧
    (hasChange o n .permissionsBoundary = true →
      n.permissionsBoundary ≠ "" →
      conn.putRolePermissionsBoundary id0 n.permissionsBoundary = .error e6 →
      (updPermissionsBoundaryStep conn id0 o n).2 = .err e6) := by
  refine ⟨?_, ?_, ?_, ?_, ?_, ?_⟩
  · intro h1 h2
    simp [resourceAwsIamRoleRead, h1, isAWSErr_nse e1 h2]
  · intro h1 h2
    rcases hd : deleteAwsIamRole conn id0 force fuel with ⟨tr, r⟩
    rw [hd] at h1
    simp only at h1
    subst h1
    simp [resourceAwsIamRoleDelete, hd, errCodeEquals, h2]
  · intro h1 h2 h3
    simp [updAssumeRolePolicyStep, h1, h2, isAWSErr_nse e3 h3]
  · intro h1 h2 h3
    simp [updDescriptionStep, h1, h2, isAWSErr_nse e4 h3]
  · intro h1 h2 h3
    simp [updMaxSessionStep, h1, h2, isAWSErr_nse e5 h3]
  · intro h1 h2 h3
    simp [updPermissionsBoundaryStep, h1, h2, h3]

/-- New state for the C7 witness: assume-role policy, description, max
session duration, and permissions boundary all changed. -/
def nC7w : RoleState :=
  { name := "r", assumeRolePolicy := "p2", description := "d2",
    maxSessionDuration := 7200, permissionsBoundary := "pb", tags := [],
    inlinePolicy := [], managedPolicyArns := [] }

/-- A connection answering `NoSuchEntity` on every call the C7 witness
exercises. -/
def connC7w : Conn :=
  { okConn with
    getRole := fun _ => .error nseErr
    deleteRole := fun _ _ => .error nseErr
    updateAssumeRolePolicy := fun _ _ => .error nseErr
    updateRoleDescription := fun _ _ => .error nseErr
    updateRole := fun _ _ => .error nseErr
    putRolePermissionsBoundary := fun _ _ => .error nseErr }

/-- Witness for the amended C7 at concrete inputs. -/
theorem claim_C7_amended_witness :
    (resourceAwsIamRoleRead connC7w "r" (fun s => s)).2 = .removed ∧
    (resourceAwsIamRoleDelete connC7w "r" false 0).2 = .ok () ∧
    (updAssumeRolePolicyStep connC7w "r" oC7 nC7w).2 = .cleared ∧
    (updDescriptionStep connC7w "r" oC7 nC7w).2 = .cleared ∧
    (updMaxSessionStep connC7w "r" oC7 nC7w).2 = .cleared ∧
    (updPermissionsBoundaryStep connC7w "r" oC7 nC7w).2 = .err nseErr := by
  have T := claim_C7_amended connC7w "r" oC7 nC7w (fun s => s) false 0
    nseErr nseErr nseErr nseErr nseErr nseErr
  exact ⟨T.1 rfl rfl, T.2.1 (by rfl) rfl, T.2.2.1 (by decide) rfl rfl,
    T.2.2.2.1 (by decide) rfl rfl, T.2.2.2.2.1 (by decide) rfl rfl,
    T.2.2.2.2.2 (by decide) (by decide) rfl⟩

lemma mutatesRoleName_false (c : ApiCall) : mutatesRoleName c = false := by
  cases c <;> rfl

/-- Claim C8: the `name` schema entry is marked `ForceNew` (so a name change
forces destroy-and-recreate), and no API call the Update handler issues can
change an existing role's name. -/
theorem claim_C8 (conn : Conn) (id0 : String) (o n : RoleState) :
    iamRoleSchema "name" =
      some { optional := true, computed := true, forceNew := true } ∧
    ∀ c ∈ (resourceAwsIamRoleUpdate conn id0 o n).1,
      mutatesRoleName c = false := by
  exact ⟨by decide, fun c _ => mutatesRoleName_false c⟩

/-- Witness for C8 at a concrete update that detaches and attaches managed
policies. -/
theorem claim_C8_witness :
    mutatesRoleName (ApiCall.detachRolePolicy "a" "r") = false :=
  (claim_C8 okConn "r" oC3 nC3).2 (ApiCall.detachRolePolicy "a" "r")
    (by decide)

lemma mem_seqUpd (a : List ApiCall × UpdResult)
    (b : Unit → List ApiCall × UpdResult) (c : ApiCall)
    (hc : c ∈ (seqUpd a b).1) : c ∈ a.1 ∨ c ∈ (b ()).1 := by
  rcases a with ⟨tr, r⟩
  cases r with
  | ok =>
    simp only [seqUpd] at hc
    exact List.mem_append.mp hc
  | cleared => exact Or.inl hc
  | err e => exact Or.inl hc
  | multi es => exact Or.inl hc

lemma updAssumeStep_kind (conn : Conn) (id0 : String) (o n : RoleState) :
    ∀ c ∈ (updAssumeRolePolicyStep conn id0 o n).1,
      attrOfCall c = some UpdAttr.assumeRolePolicy := by
  intro c hc
  unfold updAssumeRolePolicyStep at hc
  by_cases hch : hasChange o n .assumeRolePolicy = true
  · rw [if_pos hch] at hc
    cases hres : conn.updateAssumeRolePolicy id0 n.assumeRolePolicy with
    | ok v =>
      simp only [hres, List.mem_singleton] at hc
      subst hc; rfl
    | error e =>
      simp only [hres] at hc
      by_cases hz : isAWSErr (some e) errCodeNoSuchEntity "" = true
      · rw [if_pos hz] at hc
        simp only [List.mem_singleton] at hc
        subst hc; rfl
      · rw [if_neg hz] at hc
        simp only [List.mem_singleton] at hc
        subst hc; rfl
  · rw [if_neg hch] at hc
    simp at hc

lemma updDescStep_kind (conn : Conn) (id0 : String) (o n : RoleState) :
    ∀ c ∈ (updDescriptionStep conn id0 o n).1,
      attrOfCall c = some UpdAttr.description := by
  intro c hc
  unfold updDescriptionStep at hc
  by_cases hch : hasChange o n .description = true
  · rw [if_pos hch] at hc
    cases hres : conn.updateRoleDescription id0 n.description with
    | ok v =>
      simp only [hres, List.mem_singleton] at hc
      subst hc; rfl
    | error e =>
      simp only [hres] at hc
      by_cases hz : isAWSErr (some e) errCodeNoSuchEntity "" = true
      · rw [if_pos hz] at hc
        simp only [List.mem_singleton] at hc
        subst hc; rfl
      · rw [if_neg hz] at hc
        simp only [List.mem_singleton] at hc
        subst hc; rfl
  · rw [if_neg hch] at hc
    simp at hc

lemma updMaxStep_kind (conn : Conn) (id0 : String) (o n : RoleState) :
    ∀ c ∈ (updMaxSessionStep conn id0 o n).1,
      attrOfCall c = some UpdAttr.maxSessionDuration := by
  intro c hc
  unfold updMaxSessionStep at hc
  by_cases hch : hasChange o n .maxSessionDuration = true
  · rw [if_pos hch] at hc
    cases hres : conn.updateRole id0 n.maxSessionDuration with
    | ok v =>
      simp only [hres, List.mem_singleton] at hc
      subst hc; rfl
    | error e =>
      simp only [hres] at hc
      by_cases hz : isAWSErr (some e) errCodeNoSuchEntity "" = true
      · rw [if_pos hz] at hc
        simp only [List.mem_singleton] at hc
        subst hc; rfl
      · rw [if_neg hz] at hc
        simp only [List.mem_singleton] at hc
        subst hc; rfl
  · rw [if_neg hch] at hc
    simp at hc

lemma updPermStep_kind (conn : Conn) (id0 : String) (o n : RoleState) :
    ∀ c ∈ (updPermissionsBoundaryStep conn id0 o n).1,
      attrOfCall c = some UpdAttr.permissionsBoundary := by
  intro c hc
  unfold updPermissionsBoundaryStep at hc
  by_cases hch : hasChange o n .permissionsBoundary = true
  · rw [if_pos hch] at hc
    by_cases hne : n.permissionsBoundary ≠ ""
    · rw [if_pos hne] at hc
      cases hres : conn.putRolePermissionsBoundary id0 n.permissionsBoundary with
      | ok v =>
        simp only [hres, List.mem_singleton] at hc
        subst hc; rfl
      | error e =>
        simp only [hres, List.mem_singleton] at hc
        subst hc; rfl
    · rw [if_neg hne] at hc
      cases hres : conn.deleteRolePermissionsBoundary id0 with
      | ok v =>
        simp only [hres, List.mem_singleton] at hc
        subst hc; rfl
      | error e =>
        simp only [hres, List.mem_singleton] at hc
        subst hc; rfl
  · rw [if_neg hch] at hc
    simp at hc

lemma updTagsStep_kind (conn : Conn) (id0 : String) (o n : RoleState) :
    ∀ c ∈ (updTagsStep conn id0 o n).1,
      attrOfCall c = some UpdAttr.tags := by
  intro c hc
  unfold updTagsStep at hc
  by_cases hch : hasChange o n .tags = true
  · rw [if_pos hch] at hc
    cases hres : conn.updateTags id0 with
    | ok v =>
      simp only [hres, List.mem_singleton] at hc
      subst hc; rfl
    | error e =>
      simp only [hres, List.mem_singleton] at hc
      subst hc; rfl
  · rw [if_neg hch] at hc
    simp at hc

lemma updInlineStep_kind (conn : Conn) (o n : RoleState) :
    ∀ c ∈ (updInlinePolicyStep conn o n).1,
      attrOfCall c = some UpdAttr.inlinePolicy := by
  intro c hc
  unfold updInlinePolicyStep at hc
  by_cases hch : hasChange o n .inlinePolicy = true
  · rw [if_pos hch] at hc
    rcases hres : deleteAwsIamRolePolicies conn n.name
      ((updInlineRemove o n).map fun p => p.name) with ⟨t, r⟩
    cases r with
    | error e =>
      simp only [hres] at hc
      obtain ⟨nm, _, hcn⟩ := mem_deletePolicies_trace conn n.name _ c
        (by rw [hres]; exact hc)
      subst hcn; rfl
    | ok v =>
      rcases hres2 : resourceAwsIamRoleCreateInlinePolicies conn
        (expandIamInlinePolicies n.name (updInlineAdd o n)) with ⟨t2, errs⟩
      have ht2 : t2 = (expandIamInlinePolicies n.name (updInlineAdd o n)).map
          ApiCall.putRolePolicy := by
        have := (createInlinePolicies_spec conn
          (expandIamInlinePolicies n.name (updInlineAdd o n))).1
        rw [hres2] at this
        exact this
      cases errs with
      | nil =>
        simp only [hres, hres2, List.mem_append] at hc
        rcases hc with hc | hc
        · obtain ⟨nm, _, hcn⟩ := mem_deletePolicies_trace conn n.name _ c
            (by rw [hres]; exact hc)
          subst hcn; rfl
        · rw [ht2] at hc
          simp only [List.mem_map] at hc
          obtain ⟨p, _, hcp⟩ := hc
          subst hcp; rfl
      | cons e es =>
        simp only [hres, hres2, List.mem_append] at hc
        rcases hc with hc | hc
        · obtain ⟨nm, _, hcn⟩ := mem_deletePolicies_trace conn n.name _ c
            (by rw [hres]; exact hc)
          subst hcn; rfl
        · rw [ht2] at hc
          simp only [List.mem_map] at hc
          obtain ⟨p, _, hcp⟩ := hc
          subst hcp; rfl
  · rw [if_neg hch] at hc
    simp at hc

lemma updManagedStep_kind (conn : Conn) (o n : RoleState) :
    ∀ c ∈ (updManagedArnsStep conn o n).1,
      attrOfCall c = some UpdAttr.managedPolicyArns := by
  intro c hc
  unfold updManagedArnsStep at hc
  by_cases hch : hasChange o n .managedPolicyArns = true
  · rw [if_pos hch] at hc
    rcases hres : deleteAwsIamRolePolicyAttachments conn n.name
      (updManagedRemove o n) with ⟨t, r⟩
    cases r with
    | error e =>
      simp only [hres] at hc
      obtain ⟨a, _, hca⟩ := mem_deleteAttachments_trace conn n.name _ c
        (by rw [hres]; exact hc)
      subst hca; rfl
    | ok v =>
      rcases hres2 : resourceAwsIamRoleAttachManagedPolicies conn n.name
        (updManagedAdd o n) with ⟨t2, errs⟩
      have ht2 : t2 = (updManagedAdd o n).map
          (ApiCall.attachRolePolicy n.name) := by
        have := (attachManagedPolicies_spec conn n.name (updManagedAdd o n)).1
        rw [hres2] at this
        exact this
      cases errs with
      | nil =>
        simp only [hres, hres2, List.mem_append] at hc
        rcases hc with hc | hc
        · obtain ⟨a, _, hca⟩ := mem_deleteAttachments_trace conn n.name _ c
            (by rw [hres]; exact hc)
          subst hca; rfl
        · rw [ht2] at hc
          simp only [List.mem_map] at hc
          obtain ⟨p, _, hcp⟩ := hc
          subst hcp; rfl
      | cons e es =>
        simp only [hres, hres2, List.mem_append] at hc
        rcases hc with hc | hc
        · obtain ⟨a, _, hca⟩ := mem_deleteAttachments_trace conn n.name _ c
            (by rw [hres]; exact hc)
          subst hca; rfl
        · rw [ht2] at hc
          simp only [List.mem_map] at hc
          obtain ⟨p, _, hcp⟩ := hc
          subst hcp; rfl
  · rw [if_neg hch] at hc
    simp at hc

lemma updAssumeStep_empty (conn : Conn) (id0 : String) (o n : RoleState)
    (h : hasChange o n .assumeRolePolicy = false) :
    (updAssumeRolePolicyStep conn id0 o n).1 = [] := by
  simp [updAssumeRolePolicyStep, h]

lemma updDescStep_empty (conn : Conn) (id0 : String) (o n : RoleState)
    (h : hasChange o n .description = false) :
    (updDescriptionStep conn id0 o n).1 = [] := by
  simp [updDescriptionStep, h]

lemma updMaxStep_empty (conn : Conn) (id0 : String) (o n : RoleState)
    (h : hasChange o n .maxSessionDuration = false) :
    (updMaxSessionStep conn id0 o n).1 = [] := by
  simp [updMaxSessionStep, h]

lemma updPermStep_empty (conn : Conn) (id0 : String) (o n : RoleState)
    (h : hasChange o n .permissionsBoundary = false) :
    (updPermissionsBoundaryStep conn id0 o n).1 = [] := by
  simp [updPermissionsBoundaryStep, h]

lemma updTagsStep_empty (conn : Conn) (id0 : String) (o n : RoleState)
    (h : hasChange o n .tags = false) :
    (updTagsStep conn id0 o n).1 = [] := by
  simp [updTagsStep, h]

lemma updInlineStep_empty (conn : Conn) (o n : RoleState)
    (h : hasChange o n .inlinePolicy = false) :
    (updInlinePolicyStep conn o n).1 = [] := by
  simp [updInlinePolicyStep, h]

lemma updManagedStep_empty (conn : Conn) (o n : RoleState)
    (h : hasChange o n .managedPolicyArns = false) :
    (updManagedArnsStep conn o n).1 = [] := by
  simp [updManagedArnsStep, h]

/-- Claim C4: the Update handler is frame-preserving per attribute — if an
attribute (assume-role policy, description, max session duration,
permissions boundary, tags, inline policies, managed policy ARNs) did not
change between old and new state, Update issues no API call that mutates
that attribute, leaving its remote value untouched. -/
theorem claim_C4 (conn : Conn) (id0 : String) (o n : RoleState)
    (attr : UpdAttr) (h : hasChange o n attr = false) :
    ∀ c ∈ (resourceAwsIamRoleUpdate conn id0 o n).1,
      attrOfCall c ≠ some attr := by
  intro c hc hattr
  unfold resourceAwsIamRoleUpdate at hc
  rcases mem_seqUpd _ _ c hc with hm | hc
  · have hk := updAssumeStep_kind conn id0 o n c hm
    rw [hk] at hattr
    have : UpdAttr.assumeRolePolicy = attr := by injection hattr
    subst this
    rw [updAssumeStep_empty conn id0 o n h] at hm
    simp at hm
  rcases mem_seqUpd _ _ c hc with hm | hc
  · have hk := updDescStep_kind conn id0 o n c hm
    rw [hk] at hattr
    have : UpdAttr.description = attr := by injection hattr
    subst this
    rw [updDescStep_empty conn id0 o n h] at hm
    simp at hm
  rcases mem_seqUpd _ _ c hc with hm | hc
  · have hk := updMaxStep_kind conn id0 o n c hm
    rw [hk] at hattr
    have : UpdAttr.maxSessionDuration = attr := by injection hattr
    subst this
    rw [updMaxStep_empty conn id0 o n h] at hm
    simp at hm
  rcases mem_seqUpd _ _ c hc with hm | hc
  · have hk := updPermStep_kind conn id0 o n c hm
    rw [hk] at hattr
    have : UpdAttr.permissionsBoundary = attr := by injection hattr
    subst this
    rw [updPermStep_empty conn id0 o n h] at hm
    simp at hm
  rcases mem_seqUpd _ _ c hc with hm | hc
  · have hk := updTagsStep_kind conn id0 o n c hm
    rw [hk] at hattr
    have : UpdAttr.tags = attr := by injection hattr
    subst this
    rw [updTagsStep_empty conn id0 o n h] at hm
    simp at hm
  rcases mem_seqUpd _ _ c hc with hm | hc
  · have hk := updInlineStep_kind conn o n c hm
    rw [hk] at hattr
    have : UpdAttr.inlinePolicy = attr := by injection hattr
    subst this
    rw [updInlineStep_empty conn o n h] at hm
    simp at hm
  · have hk := updManagedStep_kind conn o n c hc
    rw [hk] at hattr
    have : UpdAttr.managedPolicyArns = attr := by injection hattr
    subst this
    rw [updManagedStep_empty conn o n h] at hc
    simp at hc

/-- Witness for C4: on the concrete managed-policy update, the detach call
that is issued does not belong to the unchanged `description` attribute. -/
theorem claim_C4_witness :
    attrOfCall (ApiCall.detachRolePolicy "a" "r") ≠
      some UpdAttr.description :=
  claim_C4 okConn "r" oC3 nC3 UpdAttr.description (by decide)
    (ApiCall.detachRolePolicy "a" "r") (by decide)
